import Mathlib

/-!
The x86-64 code generator `cgn.c`.

A shallow embedding of `src/12_Types_pt1/cgn.c`: the four-slot register pool
(`freereg`, `alloc_register`, `free_register`, `freeall_registers`), the
instruction emitters built on it, and the two condition tables `cmplist` and
`invcmplist`.

The C globals become an explicit state `CGState` that every function takes and
returns.  `fprintf(Outfile, ...)` appends the formatted text to the field
`Outfile`.  A call of `fatal`/`fatald` ends the run: the result `Res.fatal`
carries the message and the state reached at that point.
-/

namespace Cgn

/-! ## State and results -/

/-- Modelled from the spec: `fatal` and `fatald` (declared in `decl.h`, defined
outside `cgn.c`) abort the whole generation pass with a diagnostic message;
`fatald` also carries an integer.  `undefined` stands for an array access
outside its bounds, to which C gives no meaning. -/
inductive Fatal where
  | fatal (msg : String)
  | fatald (msg : String) (d : Int)
  | undefined
  deriving DecidableEq, Repr

/-- The error kind `RegisterPoolExhausted`: `fatal("Out of registers")`. -/
def RegisterPoolExhausted : Fatal := Fatal.fatal "Out of registers"

/-- The error kind `DoubleFreeRegister`:
`fatald("Error trying to free register", reg)`. -/
def DoubleFreeRegister (reg : Int) : Fatal :=
  Fatal.fatald "Error trying to free register" reg

/-- The error kind `InvalidComparisonOperator`; both comparison functions use
the same message text. -/
def InvalidComparisonOperator : Fatal := Fatal.fatal "Bad ASTop in cgcompare_and_set()"

/-- The mutable globals of `cgn.c`: `static int freereg[4]` and the output
stream `Outfile` (the text written so far). -/
structure CGState where
  freereg : Fin 4 → Int
  Outfile : String

/-- Outcome of a call: it returns `val` in state `s`, or the run is aborted in
state `s`. -/
inductive Res (α : Type) where
  | ok (val : α) (s : CGState)
  | fatal (e : Fatal) (s : CGState)

/-- The slot of `freereg` a C `int` index denotes, if it is within `0..3`. -/
def slot (reg : Int) : Option (Fin 4) :=
  if h : 0 ≤ reg ∧ reg < 4 then some ⟨reg.toNat, by omega⟩ else none

/-- Lookup `tab[i]` in a constant table with a C `int` index. -/
def index {α : Type} (tab : List α) (i : Int) : Option α :=
  if 0 ≤ i then tab[i.toNat]? else none

/-- The conversion `%d` of `fprintf`. -/
def fmt_d (n : Int) : String := toString n

/-- Appending text to `Outfile`, as `fprintf(Outfile, ...)` and
`fputs(..., Outfile)` do. -/
def fprintf (s : CGState) (text : String) : CGState :=
  { s with Outfile := s.Outfile ++ text }

/-- Modelled from the spec: an entry of the symbol table `Gsym` (declared in
`defs.h`): a name and a primitive type, the width class. -/
structure symtable where
  name : String
  type : Int

/-- Modelled from the spec: what `cgn.c` takes from `defs.h` and `data.h`: the
operator code `A_EQ`, the type code `P_INT`, the sentinel `NOREG` and the symbol
table `Gsym`.  Their values are not fixed here; every result holds for all of
them. -/
structure Env where
  A_EQ : Int
  P_INT : Int
  NOREG : Int
  Gsym : Int → Option symtable

/-- Modelled from the spec: the relational operator codes are the contiguous
enumeration `A_EQ, A_NE, A_LT, A_GT, A_LE, A_GE` ("in AST order"), so `A_GE`
is five past `A_EQ`. -/
def Env.A_GE (e : Env) : Int := e.A_EQ + 5

/-! ## Register pool -/

/-- `reglist[4]`. -/
def reglist : List String := ["r8", "r9", "r10", "r11"]

/-- `breglist[4]`. -/
def breglist : List String := ["r8b", "r9b", "r10b", "r11b"]

/-- `freeall_registers`: set all registers as available. -/
def freeall_registers (s : CGState) : CGState :=
  { s with freereg := fun _ => 1 }

/-- The loop of `alloc_register`, from index `i` on:
`for (; i < 4; i++) if (freereg[i]) { freereg[i] = 0; return i; }`
followed by `fatal("Out of registers")`. -/
def alloc_loop (s : CGState) (i : Nat) : Res Int :=
  if h : i < 4 then
    if s.freereg ⟨i, h⟩ ≠ 0 then
      Res.ok (i : Int) { s with freereg := Function.update s.freereg ⟨i, h⟩ 0 }
    else alloc_loop s (i + 1)
  else Res.fatal (Fatal.fatal "Out of registers") s
termination_by 4 - i

/-- `alloc_register`: allocate a free register and return its number. -/
def alloc_register (s : CGState) : Res Int := alloc_loop s 0

/-- `free_register`: return a register to the list of available registers,
after checking that it is not already there. -/
def free_register (s : CGState) (reg : Int) : Res Unit :=
  match slot reg with
  | none => Res.fatal Fatal.undefined s
  | some i =>
    if s.freereg i ≠ 0 then
      Res.fatal (Fatal.fatald "Error trying to free register" reg) s
    else Res.ok () { s with freereg := Function.update s.freereg i 1 }

/-! ## Framing -/

/-- `cgpreamble`: reset the pool and print the assembly preamble. -/
def cgpreamble (s : CGState) : CGState :=
  fprintf (freeall_registers s)
    ("\tglobal\tmain\n" ++
     "\textern\tprintf\n" ++
     "\tsection\t.text\n" ++
     "LC0:\tdb\t\"%d\",10,0\n" ++
     "printint:\n" ++
     "\tpush\trbp\n" ++
     "\tmov\trbp, rsp\n" ++
     "\tsub\trsp, 16\n" ++
     "\tmov\t[rbp-4], edi\n" ++
     "\tmov\teax, [rbp-4]\n" ++
     "\tmov\tesi, eax\n" ++
     "\tlea\trdi, [rel LC0]\n" ++
     "\tmov\teax, 0\n" ++
     "\tcall\tprintf\n" ++ "\tnop\n" ++ "\tleave\n" ++ "\tret\n" ++ "\n")

/-- `cgfuncpreamble`: print a function preamble. -/
def cgfuncpreamble (s : CGState) (name : String) : CGState :=
  fprintf s
    ("\tsection\t.text\n" ++
     "\tglobal\t" ++ name ++ "\n" ++
     name ++ ":\n" ++ "\tpush\trbp\n" ++
     "\tmov\trbp, rsp\n")

/-- `cgfuncpostamble`: print a function postamble. -/
def cgfuncpostamble (s : CGState) : CGState :=
  fprintf s ("\tmov\teax, 0\n" ++ "\tpop\trbp\n" ++ "\tret\n")

/-! ## Instruction emitters -/

/-- `cgloadint`: load an integer literal value into a new register. -/
def cgloadint (s : CGState) (value : Int) (_type : Int) : Res Int :=
  match alloc_register s with
  | Res.fatal e s1 => Res.fatal e s1
  | Res.ok r s1 =>
    match index reglist r with
    | none => Res.fatal Fatal.undefined s1
    | some rn => Res.ok r (fprintf s1 ("\tmov\t" ++ rn ++ ", " ++ fmt_d value ++ "\n"))

/-- `cgloadglob`: load a value from a variable into a new register. -/
def cgloadglob (e : Env) (s : CGState) (id : Int) : Res Int :=
  match alloc_register s with
  | Res.fatal err s1 => Res.fatal err s1
  | Res.ok r s1 =>
    match e.Gsym id, index reglist r with
    | some sym, some rn =>
      if sym.type = e.P_INT then
        Res.ok r (fprintf s1 ("\tmov\t" ++ rn ++ ", [" ++ sym.name ++ "]\n"))
      else
        Res.ok r (fprintf s1 ("\tmovzx\t" ++ rn ++ ", byte [" ++ sym.name ++ "]\n"))
    | _, _ => Res.fatal Fatal.undefined s1

/-- `cgadd`: add two registers together and return the register with the
result. -/
def cgadd (s : CGState) (r1 r2 : Int) : Res Int :=
  match index reglist r2, index reglist r1 with
  | some n2, some n1 =>
    match free_register (fprintf s ("\tadd\t" ++ n2 ++ ", " ++ n1 ++ "\n")) r1 with
    | Res.fatal e s1 => Res.fatal e s1
    | Res.ok _ s1 => Res.ok r2 s1
  | _, _ => Res.fatal Fatal.undefined s

/-- `cgsub`: subtract the second register from the first and return the
register with the result. -/
def cgsub (s : CGState) (r1 r2 : Int) : Res Int :=
  match index reglist r1, index reglist r2 with
  | some n1, some n2 =>
    match free_register (fprintf s ("\tsub\t" ++ n1 ++ ", " ++ n2 ++ "\n")) r2 with
    | Res.fatal e s1 => Res.fatal e s1
    | Res.ok _ s1 => Res.ok r1 s1
  | _, _ => Res.fatal Fatal.undefined s

/-- `cgmul`: multiply two registers together and return the register with the
result. -/
def cgmul (s : CGState) (r1 r2 : Int) : Res Int :=
  match index reglist r2, index reglist r1 with
  | some n2, some n1 =>
    match free_register (fprintf s ("\timul\t" ++ n2 ++ ", " ++ n1 ++ "\n")) r1 with
    | Res.fatal e s1 => Res.fatal e s1
    | Res.ok _ s1 => Res.ok r2 s1
  | _, _ => Res.fatal Fatal.undefined s

/-- `cgdiv`: divide the first register by the second and return the register
with the result. -/
def cgdiv (s : CGState) (r1 r2 : Int) : Res Int :=
  match index reglist r1, index reglist r2 with
  | some n1, some n2 =>
    let s1 := fprintf s ("\tmov\trax, " ++ n1 ++ "\n")
    let s2 := fprintf s1 "\tcqo\n"
    let s3 := fprintf s2 ("\tidiv\t" ++ n2 ++ "\n")
    let s4 := fprintf s3 ("\tmov\t" ++ n1 ++ ", rax\n")
    match free_register s4 r2 with
    | Res.fatal e s5 => Res.fatal e s5
    | Res.ok _ s5 => Res.ok r1 s5
  | _, _ => Res.fatal Fatal.undefined s

/-- `cgprintint`: call `printint()` with the given register. -/
def cgprintint (s : CGState) (r : Int) : Res Unit :=
  match index reglist r with
  | none => Res.fatal Fatal.undefined s
  | some rn =>
    let s1 := fprintf s ("\tmov\trdi, " ++ rn ++ "\n")
    let s2 := fprintf s1 "\tcall\tprintint\n"
    free_register s2 r

/-- `cgstorglob`: store a register's value into a variable. -/
def cgstorglob (e : Env) (s : CGState) (r : Int) (id : Int) : Res Int :=
  match e.Gsym id with
  | none => Res.fatal Fatal.undefined s
  | some sym =>
    if sym.type = e.P_INT then
      match index reglist r with
      | none => Res.fatal Fatal.undefined s
      | some rn => Res.ok r (fprintf s ("\tmov\t[" ++ sym.name ++ "], " ++ rn ++ "\n"))
    else
      match index breglist r with
      | none => Res.fatal Fatal.undefined s
      | some bn => Res.ok r (fprintf s ("\tmov\t[" ++ sym.name ++ "], " ++ bn ++ "\n"))

/-- `cgglobsym`: generate a global symbol. -/
def cgglobsym (e : Env) (s : CGState) (id : Int) : Res Unit :=
  match e.Gsym id with
  | none => Res.fatal Fatal.undefined s
  | some sym =>
    if sym.type = e.P_INT then
      Res.ok () (fprintf s ("\tcommon\t" ++ sym.name ++ " 8:8\n"))
    else
      Res.ok () (fprintf s ("\tcommon\t" ++ sym.name ++ " 1:1\n"))

/-! ## Comparisons and control flow -/

/-- `cmplist`: the comparison instructions, in AST order
`A_EQ, A_NE, A_LT, A_GT, A_LE, A_GE`. -/
def cmplist : List String := ["sete", "setne", "setl", "setg", "setle", "setge"]

/-- `invcmplist`: the inverted jump instructions, in the same order. -/
def invcmplist : List String := ["jne", "je", "jge", "jle", "jg", "jl"]

/-- `cgcompare_and_set`: compare two registers and set if true. -/
def cgcompare_and_set (e : Env) (s : CGState) (ASTop r1 r2 : Int) : Res Int :=
  if ASTop < e.A_EQ ∨ ASTop > e.A_GE then
    Res.fatal (Fatal.fatal "Bad ASTop in cgcompare_and_set()") s
  else
    match index reglist r1, index reglist r2 with
    | some n1, some n2 =>
      let s1 := fprintf s ("\tcmp\t" ++ n1 ++ ", " ++ n2 ++ "\n")
      match index cmplist (ASTop - e.A_EQ), index breglist r2 with
      | some m, some b2 =>
        let s2 := fprintf s1 ("\t" ++ m ++ "\t" ++ b2 ++ "\n")
        let s3 := fprintf s2 ("\tmovzx\t" ++ n2 ++ ", " ++ b2 ++ "\n")
        match free_register s3 r1 with
        | Res.fatal err s4 => Res.fatal err s4
        | Res.ok _ s4 => Res.ok r2 s4
      | _, _ => Res.fatal Fatal.undefined s1
    | _, _ => Res.fatal Fatal.undefined s

/-- `cglabel`: generate a label. -/
def cglabel (s : CGState) (l : Int) : CGState :=
  fprintf s ("L" ++ fmt_d l ++ ":\n")

/-- `cgjump`: generate a jump to a label. -/
def cgjump (s : CGState) (l : Int) : CGState :=
  fprintf s ("\tjmp\tL" ++ fmt_d l ++ "\n")

/-- `cgcompare_and_jump`: compare two registers and jump if false. -/
def cgcompare_and_jump (e : Env) (s : CGState) (ASTop r1 r2 label : Int) : Res Int :=
  if ASTop < e.A_EQ ∨ ASTop > e.A_GE then
    Res.fatal (Fatal.fatal "Bad ASTop in cgcompare_and_set()") s
  else
    match index reglist r1, index reglist r2 with
    | some n1, some n2 =>
      let s1 := fprintf s ("\tcmp\t" ++ n1 ++ ", " ++ n2 ++ "\n")
      match index invcmplist (ASTop - e.A_EQ) with
      | some j =>
        let s2 := fprintf s1 ("\t" ++ j ++ "\tL" ++ fmt_d label ++ "\n")
        Res.ok e.NOREG (freeall_registers s2)
      | none => Res.fatal Fatal.undefined s1
    | _, _ => Res.fatal Fatal.undefined s

/-- `cgwiden`: widen the value in the register from the old to the new type;
there is nothing to do. -/
def cgwiden (r : Int) (_oldtype _newtype : Int) : Int := r

/-! ## The x86-64 condition codes

What the mnemonics of the two tables mean on the machine: `cmp` sets the flags
from the 64-bit difference of its operands, `setcc` writes 1 and `jcc` jumps
when its condition on the flags holds. -/

/-- The zero, sign and overflow flags. -/
structure Flags where
  ZF : Bool
  SF : Bool
  OF : Bool

/-- The signed 64-bit value an integer wraps to. -/
def wrap64 (x : Int) : Int :=
  (x + 9223372036854775808) % 18446744073709551616 - 9223372036854775808

/-- The flags after `cmp a, b` on 64-bit registers: those of `a - b`. -/
def cmp (a b : Int) : Flags :=
  let d := wrap64 a - wrap64 b
  { ZF := decide (wrap64 d = 0), SF := decide (wrap64 d < 0), OF := decide (wrap64 d ≠ d) }

/-- The condition under which a `setcc` instruction writes 1. -/
def setcc : String → Option (Flags → Bool)
  | "sete" => some fun f => f.ZF
  | "setne" => some fun f => !f.ZF
  | "setl" => some fun f => f.SF != f.OF
  | "setg" => some fun f => !f.ZF && f.SF == f.OF
  | "setle" => some fun f => f.ZF || f.SF != f.OF
  | "setge" => some fun f => f.SF == f.OF
  | _ => none

/-- The condition under which a `jcc` instruction takes the jump. -/
def jcc : String → Option (Flags → Bool)
  | "je" => some fun f => f.ZF
  | "jne" => some fun f => !f.ZF
  | "jl" => some fun f => f.SF != f.OF
  | "jg" => some fun f => !f.ZF && f.SF == f.OF
  | "jle" => some fun f => f.ZF || f.SF != f.OF
  | "jge" => some fun f => f.SF == f.OF
  | _ => none

/-- The truth value of the relational operator with table index `k`, in AST
order `A_EQ, A_NE, A_LT, A_GT, A_LE, A_GE`. -/
def relop (k : Int) (a b : Int) : Bool :=
  if k = 0 then decide (a = b)
  else if k = 1 then decide (a ≠ b)
  else if k = 2 then decide (a < b)
  else if k = 3 then decide (a > b)
  else if k = 4 then decide (a ≤ b)
  else decide (a ≥ b)

/-! ## Call sequences on the pool -/

/-- The C index of a slot of the pool: one of `0, 1, 2, 3`. -/
def regno (i : Fin 4) : Int := (i.val : Int)

/-- The state with slot `i` marked held: `freereg[i] = 0`. -/
def hold (s : CGState) (i : Fin 4) : CGState :=
  { s with freereg := Function.update s.freereg i 0 }

/-- The state with slot `i` marked free: `freereg[i] = 1`. -/
def release (s : CGState) (i : Fin 4) : CGState :=
  { s with freereg := Function.update s.freereg i 1 }

/-- The name `reglist[i]` of the register of slot `i`. -/
def regname (i : Fin 4) : String := reglist.get ⟨i.val, i.isLt⟩

/-- The name `breglist[i]` of the low byte of the register of slot `i`. -/
def bregname (i : Fin 4) : String := breglist.get ⟨i.val, i.isLt⟩

/-- An example of the constants and of a symbol table: a word-sized `x` and a
byte-sized `c`. -/
def sampleEnv : Env :=
  { A_EQ := 5, P_INT := 3, NOREG := -1,
    Gsym := fun id =>
      if id = 0 then some ⟨"x", 3⟩ else if id = 1 then some ⟨"c", 2⟩ else none }

/-- One call on the register pool. -/
inductive Call where
  | alloc
  | free (reg : Int)

/-- Run a sequence of `alloc_register`/`free_register` calls, stopping with
`none` at the first call that fails.  Next to the state the run keeps `live`,
the indices returned by allocations that no later `free_register` has matched:
an allocation adds the index it returns, a free removes one occurrence of its
argument. -/
def run (s : CGState) (live : List Int) : List Call → Option (CGState × List Int)
  | [] => some (s, live)
  | Call.alloc :: cs =>
    match alloc_register s with
    | Res.ok r s1 => run s1 (r :: live) cs
    | Res.fatal _ _ => none
  | Call.free reg :: cs =>
    match free_register s reg with
    | Res.ok _ s1 => run s1 (live.erase reg) cs
    | Res.fatal _ _ => none

/-- Free the registers of a list one after the other; `none` if a call
fails. -/
def frees (s : CGState) : List Int → Option CGState
  | [] => some s
  | reg :: regs =>
    match free_register s reg with
    | Res.ok _ s1 => frees s1 regs
    | Res.fatal _ _ => none

/-- The invariant of `run`: `live` has no repetition and lists exactly the
indices of the held slots. -/
def LiveInv (s : CGState) (live : List Int) : Prop :=
  live.Nodup ∧ ∀ r : Int, r ∈ live ↔ ∃ i : Fin 4, regno i = r ∧ s.freereg i = 0

/-- The number a list of decimal digit characters denotes, continuing from
`acc`; used to read back what `%d` prints. -/
def digitsValue (cs : List Char) (acc : Nat) : Nat :=
  cs.foldl (fun a c => 10 * a + (c.toNat - 48)) acc

/-- The x86-64 name of the low byte of a 64-bit general-purpose register:
`al` for `rax`, ..., `r8b` for `r8`, ..., `r15b` for `r15`. -/
def lowByteAlias : String → Option String
  | "rax" => some "al"
  | "rbx" => some "bl"
  | "rcx" => some "cl"
  | "rdx" => some "dl"
  | "rsi" => some "sil"
  | "rdi" => some "dil"
  | "rbp" => some "bpl"
  | "rsp" => some "spl"
  | "r8" => some "r8b"
  | "r9" => some "r9b"
  | "r10" => some "r10b"
  | "r11" => some "r11b"
  | "r12" => some "r12b"
  | "r13" => some "r13b"
  | "r14" => some "r14b"
  | "r15" => some "r15b"
  | _ => none

/-- The names of the accumulator pair `rax`, `rdx` that `idiv` uses, with the
names of their 32-, 16- and 8-bit parts. -/
def accumulatorNames : List String :=
  ["rax", "eax", "ax", "ah", "al", "rdx", "edx", "dx", "dh", "dl"]

/-- The symbol name of the label `l`: `L` followed by the number. -/
def labelname (l : Int) : String := "L" ++ fmt_d l

/-- The state in which the program starts: `static int freereg[4]` is
zero-initialised and nothing has been written. -/
def initialState : CGState := { freereg := fun _ => 0, Outfile := "" }

/-! ## Basic facts -/

theorem digitChar_value (m : Nat) (h : m < 10) : (Nat.digitChar m).toNat - 48 = m := by
  interval_cases m <;> rfl

theorem digitChar_ne_minus (m : Nat) (h : m < 10) : Nat.digitChar m ≠ '-' := by
  interval_cases m <;> decide

theorem digitsValue_toDigitsCore (fuel : Nat) :
    ∀ (n : Nat) (ds : List Char), n < fuel →
      digitsValue (Nat.toDigitsCore 10 fuel n ds) 0 = digitsValue ds n := by
  induction fuel with
  | zero => intro n ds h; omega
  | succ fuel ih =>
    intro n ds h
    simp only [Nat.toDigitsCore]
    split
    · rename_i h0
      simp only [digitsValue, List.foldl_cons]
      rw [digitChar_value _ (Nat.mod_lt _ (by norm_num))]
      congr 1
      omega
    · rename_i h0
      rw [ih (n / 10) _ (by omega)]
      simp only [digitsValue, List.foldl_cons]
      rw [digitChar_value _ (Nat.mod_lt _ (by norm_num))]
      congr 1
      omega

theorem toDigitsCore_head (fuel : Nat) :
    ∀ (n : Nat) (ds : List Char), 0 < fuel →
      ∃ c cs, Nat.toDigitsCore 10 fuel n ds = c :: cs ∧ c ≠ '-' := by
  induction fuel with
  | zero => intro n ds h; omega
  | succ fuel ih =>
    intro n ds _
    simp only [Nat.toDigitsCore]
    split
    · exact ⟨_, _, rfl, digitChar_ne_minus _ (Nat.mod_lt _ (by norm_num))⟩
    · rename_i h0
      by_cases hf : fuel = 0
      · subst hf
        simp only [Nat.toDigitsCore]
        exact ⟨_, _, rfl, digitChar_ne_minus _ (Nat.mod_lt _ (by norm_num))⟩
      · exact ih _ _ (by omega)

theorem nat_repr_injective : Function.Injective Nat.repr := by
  intro a b h
  have ha := digitsValue_toDigitsCore (a + 1) a [] (by omega)
  have hb := digitsValue_toDigitsCore (b + 1) b [] (by omega)
  simp only [Nat.repr, Nat.toDigits] at h
  have h2 : Nat.toDigitsCore 10 (a + 1) a [] = Nat.toDigitsCore 10 (b + 1) b [] := by
    have := congrArg String.data h
    simpa [List.asString] using this
  rw [h2, hb] at ha
  simpa [digitsValue] using ha.symm

/-- The conversion `%d` prints different integers differently. -/
theorem fmt_d_injective : Function.Injective fmt_d := by
  intro a b h
  unfold fmt_d at h
  cases a with
  | ofNat a =>
    cases b with
    | ofNat b =>
      have : Nat.repr a = Nat.repr b := h
      rw [nat_repr_injective this]
    | negSucc b =>
      exfalso
      have h1 : Nat.repr a = "-" ++ Nat.repr (b + 1) := h
      obtain ⟨c, cs, hc, hne⟩ := toDigitsCore_head (a + 1) a [] (by omega)
      have := congrArg String.data h1
      simp [Nat.repr, Nat.toDigits, List.asString, hc] at this
      exact hne this.1
  | negSucc a =>
    cases b with
    | ofNat b =>
      exfalso
      have h1 : "-" ++ Nat.repr (a + 1) = Nat.repr b := h
      obtain ⟨c, cs, hc, hne⟩ := toDigitsCore_head (b + 1) b [] (by omega)
      have := congrArg String.data h1
      simp [Nat.repr, Nat.toDigits, List.asString, hc] at this
      exact hne this.1.symm
    | negSucc b =>
      have h1 : "-" ++ Nat.repr (a + 1) = "-" ++ Nat.repr (b + 1) := h
      have h2 : Nat.repr (a + 1) = Nat.repr (b + 1) := by
        have := congrArg String.data h1
        simp only [String.data_append, List.append_cancel_left_eq] at this
        exact String.ext this
      have := nat_repr_injective h2
      have : a = b := by omega
      rw [this]


theorem slot_regno (i : Fin 4) : slot (regno i) = some i := by
  unfold slot regno
  have h : 0 ≤ ((i.val : Nat) : Int) ∧ ((i.val : Nat) : Int) < 4 := by
    constructor <;> omega
  rw [dif_pos h]
  simp

theorem slot_eq_some {reg : Int} {i : Fin 4} (h : slot reg = some i) : reg = regno i := by
  unfold slot at h
  split at h
  · rename_i hr
    simp only [Option.some.injEq] at h
    subst h
    unfold regno
    simp only [Int.toNat_of_nonneg hr.1]
  · exact absurd h (by simp)

/-- The loop of `alloc_register`, unrolled: the first free slot is taken. -/
theorem alloc_register_eq (s : CGState) :
    alloc_register s =
      if s.freereg 0 ≠ 0 then
        Res.ok 0 { s with freereg := Function.update s.freereg 0 0 }
      else if s.freereg 1 ≠ 0 then
        Res.ok 1 { s with freereg := Function.update s.freereg 1 0 }
      else if s.freereg 2 ≠ 0 then
        Res.ok 2 { s with freereg := Function.update s.freereg 2 0 }
      else if s.freereg 3 ≠ 0 then
        Res.ok 3 { s with freereg := Function.update s.freereg 3 0 }
      else Res.fatal RegisterPoolExhausted s := by
  unfold alloc_register RegisterPoolExhausted
  rw [alloc_loop, alloc_loop, alloc_loop, alloc_loop, alloc_loop]
  simp

/-- Slot `i` is taken when it is free and every slot below it is held. -/
theorem alloc_register_first (s : CGState) (i : Fin 4)
    (hlow : ∀ j : Fin 4, j < i → s.freereg j = 0) (hi : s.freereg i ≠ 0) :
    alloc_register s = Res.ok (regno i) (hold s i) := by
  rw [alloc_register_eq]
  unfold hold
  fin_cases i
  · simp at hi
    simp [hi, regno]
  · have h0 := hlow 0 (by decide)
    simp at hi h0
    simp [hi, h0, regno]
  · have h0 := hlow 0 (by decide)
    have h1 := hlow 1 (by decide)
    simp at hi h0 h1
    simp [hi, h0, h1, regno]
  · have h0 := hlow 0 (by decide)
    have h1 := hlow 1 (by decide)
    have h2 := hlow 2 (by decide)
    simp at hi h0 h1 h2
    simp [hi, h0, h1, h2, regno]

/-- From a pool whose slots are all free, four allocations take the slots
`0, 1, 2, 3` in this order. -/
theorem alloc_register_four (s : CGState) (hall : ∀ i, s.freereg i ≠ 0) :
    alloc_register s = Res.ok 0 (hold s 0) ∧
      alloc_register (hold s 0) = Res.ok 1 (hold (hold s 0) 1) ∧
      alloc_register (hold (hold s 0) 1) = Res.ok 2 (hold (hold (hold s 0) 1) 2) ∧
      alloc_register (hold (hold (hold s 0) 1) 2) =
        Res.ok 3 (hold (hold (hold (hold s 0) 1) 2) 3) := by
  have h0 := hall 0
  have h1 := hall 1
  have h2 := hall 2
  have h3 := hall 3
  refine ⟨?_, ?_, ?_, ?_⟩
  · rw [alloc_register_eq]
    simp [h0, hold]
  · rw [alloc_register_eq]
    simp [h1, hold]
  · rw [alloc_register_eq]
    simp [h2, hold]
  · rw [alloc_register_eq]
    simp [h3, hold]

theorem free_register_held (s : CGState) (i : Fin 4) (h : s.freereg i = 0) :
    free_register s (regno i) =
      Res.ok () { s with freereg := Function.update s.freereg i 1 } := by
  simp [free_register, slot_regno, h]

theorem free_register_free (s : CGState) (i : Fin 4) (h : s.freereg i ≠ 0) :
    free_register s (regno i) = Res.fatal (DoubleFreeRegister (regno i)) s := by
  simp [free_register, slot_regno, h, DoubleFreeRegister]

/-- A successful `free_register` was given the index of a held slot, which it
marks free. -/
theorem free_register_ok {s s1 : CGState} {reg : Int} {u : Unit}
    (h : free_register s reg = Res.ok u s1) :
    ∃ i : Fin 4, reg = regno i ∧ s.freereg i = 0 ∧
      s1 = { s with freereg := Function.update s.freereg i 1 } := by
  unfold free_register at h
  cases hs : slot reg with
  | none => simp [hs] at h
  | some i =>
    simp only [hs] at h
    by_cases hf : s.freereg i = 0
    · simp [hf] at h
      exact ⟨i, slot_eq_some hs, hf, h.symm⟩
    · simp [hf] at h

/-- A successful `alloc_register` returns the index of a free slot, which it
marks held. -/
theorem alloc_register_ok {s s1 : CGState} {r : Int}
    (h : alloc_register s = Res.ok r s1) :
    ∃ i : Fin 4, r = regno i ∧ s.freereg i ≠ 0 ∧
      s1 = { s with freereg := Function.update s.freereg i 0 } := by
  rw [alloc_register_eq] at h
  split_ifs at h with h0 h1 h2 h3
  · simp only [Res.ok.injEq] at h
    exact ⟨0, by rw [← h.1]; rfl, h0, h.2.symm⟩
  · simp only [Res.ok.injEq] at h
    exact ⟨1, by rw [← h.1]; rfl, h1, h.2.symm⟩
  · simp only [Res.ok.injEq] at h
    exact ⟨2, by rw [← h.1]; rfl, h2, h.2.symm⟩
  · simp only [Res.ok.injEq] at h
    exact ⟨3, by rw [← h.1]; rfl, h3, h.2.symm⟩

theorem regno_injective {i j : Fin 4} (h : regno i = regno j) : i = j := by
  unfold regno at h
  exact Fin.ext (by exact_mod_cast h)

theorem LiveInv_alloc {s s1 : CGState} {live : List Int} {r : Int}
    (hinv : LiveInv s live) (h : alloc_register s = Res.ok r s1) :
    LiveInv s1 (r :: live) := by
  obtain ⟨i, rfl, hfree, rfl⟩ := alloc_register_ok h
  obtain ⟨hnd, hmem⟩ := hinv
  constructor
  · refine List.nodup_cons.mpr ⟨?_, hnd⟩
    intro hin
    obtain ⟨j, hj, hz⟩ := (hmem _).mp hin
    rw [regno_injective hj] at hz
    exact hfree hz
  · intro r
    simp only [List.mem_cons, hmem]
    constructor
    · rintro (rfl | ⟨j, rfl, hz⟩)
      · exact ⟨i, rfl, by simp⟩
      · refine ⟨j, rfl, ?_⟩
        have hne : j ≠ i := fun hji => hfree (hji ▸ hz)
        simp [Function.update_noteq hne, hz]
    · rintro ⟨j, rfl, hz⟩
      by_cases hji : j = i
      · exact Or.inl (by rw [hji])
      · exact Or.inr ⟨j, rfl, by simpa [Function.update_noteq hji] using hz⟩

theorem LiveInv_free {s s1 : CGState} {live : List Int} {reg : Int} {u : Unit}
    (hinv : LiveInv s live) (h : free_register s reg = Res.ok u s1) :
    LiveInv s1 (live.erase reg) := by
  obtain ⟨i, rfl, _, rfl⟩ := free_register_ok h
  obtain ⟨hnd, hmem⟩ := hinv
  constructor
  · exact hnd.erase _
  · intro r
    rw [hnd.mem_erase_iff, hmem]
    constructor
    · rintro ⟨hne, j, rfl, hz⟩
      have hji : j ≠ i := fun hji => hne (by rw [hji])
      exact ⟨j, rfl, by simpa [Function.update_noteq hji] using hz⟩
    · rintro ⟨j, rfl, hz⟩
      have hji : j ≠ i := by
        rintro rfl
        simp at hz
      exact ⟨fun heq => hji (regno_injective heq), j, rfl,
        by simpa [Function.update_noteq hji] using hz⟩

theorem run_LiveInv (calls : List Call) :
    ∀ (s : CGState) (live : List Int) (s1 : CGState) (live1 : List Int),
      LiveInv s live → run s live calls = some (s1, live1) → LiveInv s1 live1 := by
  induction calls with
  | nil =>
    intro s live s1 live1 hinv h
    simp only [run, Option.some.injEq, Prod.mk.injEq] at h
    rw [← h.1, ← h.2]
    exact hinv
  | cons c cs ih =>
    intro s live s1 live1 hinv h
    cases c with
    | alloc =>
      simp only [run] at h
      cases ha : alloc_register s with
      | ok r s2 =>
        rw [ha] at h
        exact ih s2 (r :: live) s1 live1 (LiveInv_alloc hinv ha) h
      | fatal e s2 =>
        rw [ha] at h
        exact absurd h (by simp)
    | free reg =>
      simp only [run] at h
      cases hf : free_register s reg with
      | ok u s2 =>
        rw [hf] at h
        exact ih s2 (live.erase reg) s1 live1 (LiveInv_free hinv hf) h
      | fatal e s2 =>
        rw [hf] at h
        exact absurd h (by simp)

/-! ## The register pool -/

/-- C1, pool exclusivity: run any sequence of `alloc_register` and
`free_register` calls on a freshly reset pool.  If no call fails, the indices
returned by allocations not yet matched by a free are pairwise distinct, and
they are exactly the indices of the slots marked held (`freereg[i] = 0`). -/
theorem pool_exclusivity (s0 : CGState) (calls : List Call) (s : CGState)
    (live : List Int)
    (h : run (freeall_registers s0) [] calls = some (s, live)) :
    live.Nodup ∧ ∀ r : Int, r ∈ live ↔ ∃ i : Fin 4, regno i = r ∧ s.freereg i = 0 := by
  refine run_LiveInv calls (freeall_registers s0) [] s live ?_ h
  constructor
  · exact List.nodup_nil
  · intro r
    simp [freeall_registers]

/-- Pool exclusivity on a run of two allocations and one free: slot 1 stays
held. -/
theorem pool_exclusivity_witness :
    run (freeall_registers ⟨fun _ => 0, ""⟩) []
        [Call.alloc, Call.alloc, Call.free 0] = some (⟨![1, 0, 1, 1], ""⟩, [1]) ∧
      ([1] : List Int).Nodup ∧
      ∀ r : Int, r ∈ ([1] : List Int) ↔
        ∃ i : Fin 4, regno i = r ∧ (![1, 0, 1, 1] : Fin 4 → Int) i = 0 := by
  have h : run (freeall_registers ⟨fun _ => 0, ""⟩) []
      [Call.alloc, Call.alloc, Call.free 0] = some (⟨![1, 0, 1, 1], ""⟩, [1]) := by
    simp [run, alloc_register_eq, free_register, slot, freeall_registers]
    funext i
    fin_cases i <;> rfl
  exact ⟨h, pool_exclusivity _ _ _ _ h⟩

/-- Freeing registers other than `i` leaves slot `i` as it is. -/
theorem frees_other (i : Fin 4) (regs : List Int) :
    ∀ (s s1 : CGState), (∀ reg ∈ regs, reg ≠ regno i) → frees s regs = some s1 →
      s1.freereg i = s.freereg i := by
  induction regs with
  | nil =>
    intro s s1 _ h
    simp only [frees, Option.some.injEq] at h
    rw [h]
  | cons reg regs ih =>
    intro s s1 hne h
    simp only [frees] at h
    cases hf : free_register s reg with
    | fatal e s2 =>
      rw [hf] at h
      exact absurd h (by simp)
    | ok u s2 =>
      rw [hf] at h
      have h1 := ih s2 s1 (fun r hr => hne r (List.mem_cons_of_mem _ hr)) h
      obtain ⟨j, hj, _, rfl⟩ := free_register_ok hf
      have hji : i ≠ j := by
        rintro rfl
        exact hne reg (List.mem_cons_self _ _) hj
      rw [h1]
      simp [Function.update_noteq hji]

/-- C2, double-free detection: for an index `i` in `0..3`, `free_register(i)`
fails with `DoubleFreeRegister` exactly when slot `i` is already free; a failing
call leaves the state unchanged; and after a successful `free_register(i)`,
followed by successful frees of any other indices, a second `free_register(i)`
fails with `DoubleFreeRegister` and changes nothing. -/
theorem double_free_detection (s : CGState) (i : Fin 4) :
    ((∃ s1, free_register s (regno i) = Res.fatal (DoubleFreeRegister (regno i)) s1) ↔
        s.freereg i ≠ 0) ∧
      (∀ e s1, free_register s (regno i) = Res.fatal e s1 →
        e = DoubleFreeRegister (regno i) ∧ s1 = s) ∧
      (∀ s1, free_register s (regno i) = Res.ok () s1 →
        ∀ (regs : List Int) (s2 : CGState), (∀ reg ∈ regs, reg ≠ regno i) →
          frees s1 regs = some s2 →
          free_register s2 (regno i) = Res.fatal (DoubleFreeRegister (regno i)) s2) := by
  refine ⟨⟨?_, ?_⟩, ?_, ?_⟩
  · rintro ⟨s1, h⟩ hz
    rw [free_register_held s i hz] at h
    exact absurd h (by simp)
  · intro hf
    exact ⟨s, free_register_free s i hf⟩
  · intro e s1 h
    by_cases hz : s.freereg i = 0
    · rw [free_register_held s i hz] at h
      exact absurd h (by simp)
    · rw [free_register_free s i hz] at h
      simp only [Res.fatal.injEq] at h
      exact ⟨h.1.symm, h.2.symm⟩
  · intro s1 h regs s2 hne hfs
    obtain ⟨j, hj, _, rfl⟩ := free_register_ok h
    have hji : j = i := (regno_injective hj).symm
    subst hji
    apply free_register_free
    rw [frees_other j regs _ s2 hne hfs]
    simp

/-- Slots 0 and 1 held: free 0, free 1, then a second free of 0 is refused. -/
theorem double_free_detection_witness :
    free_register ⟨![0, 0, 1, 1], ""⟩ (regno 0) =
        Res.ok () (release ⟨![0, 0, 1, 1], ""⟩ 0) ∧
      (∀ reg ∈ [regno 1], reg ≠ regno 0) ∧
      frees (release ⟨![0, 0, 1, 1], ""⟩ 0) [regno 1] =
        some (release (release ⟨![0, 0, 1, 1], ""⟩ 0) 1) ∧
      free_register (release (release ⟨![0, 0, 1, 1], ""⟩ 0) 1) (regno 0) =
        Res.fatal (DoubleFreeRegister (regno 0))
          (release (release ⟨![0, 0, 1, 1], ""⟩ 0) 1) := by
  have h1 : free_register ⟨![0, 0, 1, 1], ""⟩ (regno 0) =
      Res.ok () (release ⟨![0, 0, 1, 1], ""⟩ 0) := free_register_held _ 0 rfl
  have hne : ∀ reg ∈ [regno 1], reg ≠ regno 0 := by
    intro reg hreg
    rw [List.mem_singleton.mp hreg]
    decide
  have h2 : frees (release ⟨![0, 0, 1, 1], ""⟩ 0) [regno 1] =
      some (release (release ⟨![0, 0, 1, 1], ""⟩ 0) 1) := by
    simp only [frees]
    rw [free_register_held _ 1 rfl]
    rfl
  exact ⟨h1, hne, h2,
    (double_free_detection ⟨![0, 0, 1, 1], ""⟩ 0).2.2 _ h1 [regno 1] _ hne h2⟩

/-- C3, exhaustion: `alloc_register` fails with `RegisterPoolExhausted` exactly
when no slot is free, and then changes nothing; from a pool whose four slots are
all free, four allocations in a row succeed and the fifth fails. -/
theorem exhaustion (s : CGState) :
    ((∃ s1, alloc_register s = Res.fatal RegisterPoolExhausted s1) ↔
        ∀ i, s.freereg i = 0) ∧
      (∀ e s1, alloc_register s = Res.fatal e s1 →
        e = RegisterPoolExhausted ∧ s1 = s ∧ ∀ i, s.freereg i = 0) ∧
      ((∀ i, s.freereg i ≠ 0) →
        ∃ r1 s1 r2 s2 r3 s3 r4 s4,
          alloc_register s = Res.ok r1 s1 ∧ alloc_register s1 = Res.ok r2 s2 ∧
          alloc_register s2 = Res.ok r3 s3 ∧ alloc_register s3 = Res.ok r4 s4 ∧
          alloc_register s4 = Res.fatal RegisterPoolExhausted s4) := by
  have key : ∀ e s1, alloc_register s = Res.fatal e s1 →
      e = RegisterPoolExhausted ∧ s1 = s ∧ ∀ i, s.freereg i = 0 := by
    intro e s1 h
    rw [alloc_register_eq] at h
    split_ifs at h with h0 h1 h2 h3
    simp only [Res.fatal.injEq] at h
    refine ⟨h.1.symm, h.2.symm, ?_⟩
    intro i
    fin_cases i
    · exact not_not.mp h0
    · exact not_not.mp h1
    · exact not_not.mp h2
    · exact not_not.mp h3
  refine ⟨⟨?_, ?_⟩, key, ?_⟩
  · rintro ⟨s1, h⟩
    exact (key _ _ h).2.2
  · intro hall
    refine ⟨s, ?_⟩
    rw [alloc_register_eq]
    simp [hall]
  · intro hall
    obtain ⟨a1, a2, a3, a4⟩ := alloc_register_four s hall
    refine ⟨_, _, _, _, _, _, _, _, a1, a2, a3, a4, ?_⟩
    rw [alloc_register_eq]
    simp [hold]

/-- A freshly reset pool gives four registers and refuses the fifth. -/
theorem exhaustion_witness :
    (∀ i : Fin 4, (CGState.mk (fun _ => 1) "").freereg i ≠ 0) ∧
      ∃ r1 s1 r2 s2 r3 s3 r4 s4,
        alloc_register (CGState.mk (fun _ => 1) "") = Res.ok r1 s1 ∧
        alloc_register s1 = Res.ok r2 s2 ∧
        alloc_register s2 = Res.ok r3 s3 ∧ alloc_register s3 = Res.ok r4 s4 ∧
        alloc_register s4 = Res.fatal RegisterPoolExhausted s4 :=
  ⟨fun _ => one_ne_zero, (exhaustion (CGState.mk (fun _ => 1) "")).2.2 (fun _ => one_ne_zero)⟩

/-- C4, reset completeness: whatever the state before, after
`freeall_registers` the next four `alloc_register` calls all succeed. -/
theorem reset_completeness (s : CGState) :
    ∃ r1 s1 r2 s2 r3 s3 r4 s4,
      alloc_register (freeall_registers s) = Res.ok r1 s1 ∧
      alloc_register s1 = Res.ok r2 s2 ∧
      alloc_register s2 = Res.ok r3 s3 ∧
      alloc_register s3 = Res.ok r4 s4 := by
  obtain ⟨a1, a2, a3, a4⟩ :=
    alloc_register_four (freeall_registers s) (by simp [freeall_registers])
  exact ⟨_, _, _, _, _, _, _, _, a1, a2, a3, a4⟩

/-! ## The condition tables -/

/-- On operands within the signed 64-bit range, the flags of `cmp a, b` tell
whether `a = b` (the zero flag) and whether `a < b` (sign differs from
overflow). -/
theorem cmp_flags (a b : Int) (ha : wrap64 a = a) (hb : wrap64 b = b) :
    (cmp a b).ZF = decide (a = b) ∧
      ((cmp a b).SF != (cmp a b).OF) = decide (a < b) ∧
      ((cmp a b).SF == (cmp a b).OF) = !decide (a < b) := by
  have hz : (cmp a b).ZF = decide (a = b) := by
    rw [Bool.eq_iff_iff]
    simp only [cmp, wrap64] at *
    simp
    omega
  have hl : ((cmp a b).SF != (cmp a b).OF) = decide (a < b) := by
    rw [Bool.eq_iff_iff]
    simp only [cmp, wrap64] at *
    simp
    omega
  refine ⟨hz, hl, ?_⟩
  rw [← hl]
  cases (cmp a b).SF <;> cases (cmp a b).OF <;> rfl

/-- The `setcc` conditions of `cmplist`, read on the flags of `cmp a, b`, are
the six relations in AST order. -/
theorem setcc_cmp_relop (a b : Int) (ha : wrap64 a = a) (hb : wrap64 b = b) :
    (cmp a b).ZF = relop 0 a b ∧ (!(cmp a b).ZF) = relop 1 a b ∧
      ((cmp a b).SF != (cmp a b).OF) = relop 2 a b ∧
      (!(cmp a b).ZF && (cmp a b).SF == (cmp a b).OF) = relop 3 a b ∧
      ((cmp a b).ZF || (cmp a b).SF != (cmp a b).OF) = relop 4 a b ∧
      ((cmp a b).SF == (cmp a b).OF) = relop 5 a b := by
  obtain ⟨hz, hl, hge⟩ := cmp_flags a b ha hb
  rw [hz, hl, hge]
  unfold relop
  by_cases h1 : a = b <;> by_cases h2 : a < b <;> simp [h1, h2] <;> omega

/-- C5, table complementarity: `cmplist` and `invcmplist` have six entries
each, paired as sete/jne, setne/je, setl/jge, setg/jle, setle/jg, setge/jl; and
for every operator code from `A_EQ` to `A_GE` and all values `a`, `b` compared
by `cmp a, b`, the condition under which the entry of `cmplist` writes 1 is
the negation of the condition under which the entry of `invcmplist` jumps.
For operands within the signed 64-bit range the first condition is the
truth value of the operator itself. -/
theorem table_complementarity (e : Env) :
    cmplist.length = 6 ∧ invcmplist.length = 6 ∧
      cmplist.zip invcmplist =
        [("sete", "jne"), ("setne", "je"), ("setl", "jge"), ("setg", "jle"),
          ("setle", "jg"), ("setge", "jl")] ∧
      ∀ ASTop : Int, e.A_EQ ≤ ASTop → ASTop ≤ e.A_GE →
        ∃ m j sc jc,
          index cmplist (ASTop - e.A_EQ) = some m ∧
          index invcmplist (ASTop - e.A_EQ) = some j ∧
          setcc m = some sc ∧ jcc j = some jc ∧
          (∀ a b : Int, sc (cmp a b) = !jc (cmp a b)) ∧
          (∀ a b : Int, wrap64 a = a → wrap64 b = b →
            sc (cmp a b) = relop (ASTop - e.A_EQ) a b) := by
  refine ⟨rfl, rfl, rfl, ?_⟩
  intro ASTop hlo hhi
  unfold Env.A_GE at hhi
  have hk : ASTop - e.A_EQ = 0 ∨ ASTop - e.A_EQ = 1 ∨ ASTop - e.A_EQ = 2 ∨
      ASTop - e.A_EQ = 3 ∨ ASTop - e.A_EQ = 4 ∨ ASTop - e.A_EQ = 5 := by omega
  rcases hk with hk | hk | hk | hk | hk | hk <;> rw [hk]
  · refine ⟨"sete", "jne", _, _, rfl, rfl, rfl, rfl, ?_, ?_⟩
    · intro a b
      cases (cmp a b).ZF <;> cases (cmp a b).SF <;> cases (cmp a b).OF <;> rfl
    · intro a b ha hb
      exact (setcc_cmp_relop a b ha hb).1
  · refine ⟨"setne", "je", _, _, rfl, rfl, rfl, rfl, ?_, ?_⟩
    · intro a b
      cases (cmp a b).ZF <;> cases (cmp a b).SF <;> cases (cmp a b).OF <;> rfl
    · intro a b ha hb
      exact (setcc_cmp_relop a b ha hb).2.1
  · refine ⟨"setl", "jge", _, _, rfl, rfl, rfl, rfl, ?_, ?_⟩
    · intro a b
      cases (cmp a b).ZF <;> cases (cmp a b).SF <;> cases (cmp a b).OF <;> rfl
    · intro a b ha hb
      exact (setcc_cmp_relop a b ha hb).2.2.1
  · refine ⟨"setg", "jle", _, _, rfl, rfl, rfl, rfl, ?_, ?_⟩
    · intro a b
      cases (cmp a b).ZF <;> cases (cmp a b).SF <;> cases (cmp a b).OF <;> rfl
    · intro a b ha hb
      exact (setcc_cmp_relop a b ha hb).2.2.2.1
  · refine ⟨"setle", "jg", _, _, rfl, rfl, rfl, rfl, ?_, ?_⟩
    · intro a b
      cases (cmp a b).ZF <;> cases (cmp a b).SF <;> cases (cmp a b).OF <;> rfl
    · intro a b ha hb
      exact (setcc_cmp_relop a b ha hb).2.2.2.2.1
  · refine ⟨"setge", "jl", _, _, rfl, rfl, rfl, rfl, ?_, ?_⟩
    · intro a b
      cases (cmp a b).ZF <;> cases (cmp a b).SF <;> cases (cmp a b).OF <;> rfl
    · intro a b ha hb
      exact (setcc_cmp_relop a b ha hb).2.2.2.2.2

/-- The entries for `A_LT`, `setl` and `jge`, with `A_EQ = 5`. -/
theorem table_complementarity_witness :
    sampleEnv.A_EQ ≤ 7 ∧ 7 ≤ sampleEnv.A_GE ∧
      ∃ m j sc jc,
        index cmplist (7 - sampleEnv.A_EQ) = some m ∧
        index invcmplist (7 - sampleEnv.A_EQ) = some j ∧
        setcc m = some sc ∧ jcc j = some jc ∧
        (∀ a b : Int, sc (cmp a b) = !jc (cmp a b)) ∧
        (∀ a b : Int, wrap64 a = a → wrap64 b = b →
          sc (cmp a b) = relop (7 - sampleEnv.A_EQ) a b) :=
  ⟨by decide, by decide, (table_complementarity sampleEnv).2.2.2 7 (by decide) (by decide)⟩

/-! ## The emitters on held registers -/

theorem index_reglist (i : Fin 4) : index reglist (regno i) = some (regname i) := by
  fin_cases i <;> rfl

theorem index_breglist (i : Fin 4) : index breglist (regno i) = some (bregname i) := by
  fin_cases i <;> rfl

/-- The entries of `reglist` are `r8`, `r9`, `r10`, `r11`, and the entry of
`breglist` at the same index is the low byte of that register: the same name
with `b` appended. -/
theorem bregname_low_byte (i : Fin 4) :
    (regname i, bregname i) ∈
        [("r8", "r8b"), ("r9", "r9b"), ("r10", "r10b"), ("r11", "r11b")] ∧
      lowByteAlias (regname i) = some (bregname i) ∧
      bregname i = regname i ++ "b" ∧ bregname i ≠ regname i := by
  fin_cases i <;> decide

theorem free_register_fprintf (s : CGState) (text : String) (i : Fin 4)
    (h : s.freereg i = 0) :
    free_register (fprintf s text) (regno i) = Res.ok () (release (fprintf s text) i) :=
  free_register_held (fprintf s text) i h

theorem cgadd_held (s : CGState) (i1 i2 : Fin 4) (h1 : s.freereg i1 = 0) :
    cgadd s (regno i1) (regno i2) =
      Res.ok (regno i2)
        (release (fprintf s ("\tadd\t" ++ regname i2 ++ ", " ++ regname i1 ++ "\n")) i1) := by
  unfold cgadd
  rw [index_reglist, index_reglist]
  simp only []
  rw [free_register_fprintf s _ i1 h1]

theorem cgsub_held (s : CGState) (i1 i2 : Fin 4) (h2 : s.freereg i2 = 0) :
    cgsub s (regno i1) (regno i2) =
      Res.ok (regno i1)
        (release (fprintf s ("\tsub\t" ++ regname i1 ++ ", " ++ regname i2 ++ "\n")) i2) := by
  unfold cgsub
  rw [index_reglist, index_reglist]
  simp only []
  rw [free_register_fprintf s _ i2 h2]

theorem cgmul_held (s : CGState) (i1 i2 : Fin 4) (h1 : s.freereg i1 = 0) :
    cgmul s (regno i1) (regno i2) =
      Res.ok (regno i2)
        (release (fprintf s ("\timul\t" ++ regname i2 ++ ", " ++ regname i1 ++ "\n")) i1) := by
  unfold cgmul
  rw [index_reglist, index_reglist]
  simp only []
  rw [free_register_fprintf s _ i1 h1]

theorem cgdiv_held (s : CGState) (i1 i2 : Fin 4) (h2 : s.freereg i2 = 0) :
    cgdiv s (regno i1) (regno i2) =
      Res.ok (regno i1)
        (release
          (fprintf
            (fprintf
              (fprintf (fprintf s ("\tmov\trax, " ++ regname i1 ++ "\n")) "\tcqo\n")
              ("\tidiv\t" ++ regname i2 ++ "\n"))
            ("\tmov\t" ++ regname i1 ++ ", rax\n")) i2) := by
  unfold cgdiv
  rw [index_reglist, index_reglist]
  simp only []
  rw [free_register_fprintf _ _ i2 (by simpa [fprintf] using h2)]

/-- After two allocations the slots taken are two different slots that were
free before. -/
theorem alloc_register_twice {s s1 s2 : CGState} {r1 r2 : Int}
    (ha1 : alloc_register s = Res.ok r1 s1) (ha2 : alloc_register s1 = Res.ok r2 s2) :
    ∃ i1 i2 : Fin 4, r1 = regno i1 ∧ r2 = regno i2 ∧ i2 ≠ i1 ∧
      s.freereg i1 ≠ 0 ∧ s.freereg i2 ≠ 0 ∧ s2 = hold (hold s i1) i2 := by
  obtain ⟨i1, rfl, hf1, rfl⟩ := alloc_register_ok ha1
  obtain ⟨i2, rfl, hf2, rfl⟩ := alloc_register_ok ha2
  have hne : i2 ≠ i1 := by
    rintro rfl
    simp at hf2
  refine ⟨i1, i2, rfl, rfl, hne, hf1, ?_, rfl⟩
  simpa [Function.update_noteq hne] using hf2

/-- Slots held after taking `i1` and `i2` and releasing `i1`. -/
theorem held_keep_second (s s2 : CGState) (i1 i2 : Fin 4) (hne : i2 ≠ i1)
    (hs2 : s2.freereg = (hold (hold s i1) i2).freereg)
    (h1 : s.freereg i1 ≠ 0) (i : Fin 4) :
    (release s2 i1).freereg i = 0 ↔ (s.freereg i = 0 ∨ i = i2) := by
  simp only [release, hs2, hold]
  by_cases hi1 : i = i1
  · subst hi1
    simp [h1, hne.symm]
  · by_cases hi2 : i = i2
    · subst hi2
      simp [Function.update_noteq hi1]
    · simp [Function.update_noteq hi1, Function.update_noteq hi2, hi2]

/-- Slots held after taking `i1` and `i2` and releasing `i2`. -/
theorem held_keep_first (s s2 : CGState) (i1 i2 : Fin 4) (hne : i2 ≠ i1)
    (hs2 : s2.freereg = (hold (hold s i1) i2).freereg)
    (h2 : s.freereg i2 ≠ 0) (i : Fin 4) :
    (release s2 i2).freereg i = 0 ↔ (s.freereg i = 0 ∨ i = i1) := by
  simp only [release, hs2, hold]
  by_cases hi2 : i = i2
  · subst hi2
    simp [h2, hne]
  · by_cases hi1 : i = i1
    · subst hi1
      simp [Function.update_noteq hi2]
    · simp [Function.update_noteq hi1, Function.update_noteq hi2, hi1]

/-! ## Register accounting of the emitters -/

/-- C6, arithmetic register accounting: let two `alloc_register` calls in a
row succeed, returning `r1` then `r2`.  Then each of `cgadd`, `cgsub`, `cgmul`,
`cgdiv` applied to `(r1, r2)` succeeds, and the slots held afterwards are those
held before the two allocations plus the returned index, which was free before;
from a pool with every slot free, exactly the returned index is held. -/
theorem arithmetic_register_accounting (s s1 s2 : CGState) (r1 r2 : Int)
    (ha1 : alloc_register s = Res.ok r1 s1) (ha2 : alloc_register s1 = Res.ok r2 s2) :
    ∀ op ∈ [cgadd, cgsub, cgmul, cgdiv],
      ∃ (r : Int) (s3 : CGState) (j : Fin 4),
        op s2 r1 r2 = Res.ok r s3 ∧ r = regno j ∧ s.freereg j ≠ 0 ∧
        (∀ i : Fin 4, s3.freereg i = 0 ↔ (s.freereg i = 0 ∨ i = j)) ∧
        ((∀ i, s.freereg i ≠ 0) → ∀ i : Fin 4, s3.freereg i = 0 ↔ regno i = r) := by
  obtain ⟨i1, i2, rfl, rfl, hne, hf1, hf2, rfl⟩ := alloc_register_twice ha1 ha2
  have h1 : (hold (hold s i1) i2).freereg i1 = 0 := by
    simp [hold, Function.update_noteq hne.symm]
  have h2 : (hold (hold s i1) i2).freereg i2 = 0 := by
    simp [hold]
  have fin : ∀ (s3 : CGState) (j : Fin 4),
      (∀ i : Fin 4, s3.freereg i = 0 ↔ (s.freereg i = 0 ∨ i = j)) →
      (∀ i, s.freereg i ≠ 0) → ∀ i : Fin 4, s3.freereg i = 0 ↔ regno i = regno j := by
    intro s3 j hs hall i
    rw [hs i]
    constructor
    · rintro (h | h)
      · exact absurd h (hall i)
      · rw [h]
    · intro h
      exact Or.inr (regno_injective h)
  intro op hop
  simp only [List.mem_cons, List.mem_nil_iff, or_false] at hop
  rcases hop with rfl | rfl | rfl | rfl
  · rw [cgadd_held _ i1 i2 h1]
    exact ⟨_, _, i2, rfl, rfl, hf2, held_keep_second s _ i1 i2 hne rfl hf1,
      fin _ i2 (held_keep_second s _ i1 i2 hne rfl hf1)⟩
  · rw [cgsub_held _ i1 i2 h2]
    exact ⟨_, _, i1, rfl, rfl, hf1, held_keep_first s _ i1 i2 hne rfl hf2,
      fin _ i1 (held_keep_first s _ i1 i2 hne rfl hf2)⟩
  · rw [cgmul_held _ i1 i2 h1]
    exact ⟨_, _, i2, rfl, rfl, hf2, held_keep_second s _ i1 i2 hne rfl hf1,
      fin _ i2 (held_keep_second s _ i1 i2 hne rfl hf1)⟩
  · rw [cgdiv_held _ i1 i2 h2]
    exact ⟨_, _, i1, rfl, rfl, hf1, held_keep_first s _ i1 i2 hne rfl hf2,
      fin _ i1 (held_keep_first s _ i1 i2 hne rfl hf2)⟩

/-- The four operations on the registers 0 and 1 taken from a fresh pool. -/
theorem arithmetic_register_accounting_witness :
    alloc_register ⟨fun _ => 1, ""⟩ = Res.ok 0 (hold ⟨fun _ => 1, ""⟩ 0) ∧
      alloc_register (hold ⟨fun _ => 1, ""⟩ 0) =
        Res.ok 1 (hold (hold ⟨fun _ => 1, ""⟩ 0) 1) ∧
      ∀ op ∈ [cgadd, cgsub, cgmul, cgdiv],
        ∃ (r : Int) (s3 : CGState) (j : Fin 4),
          op (hold (hold ⟨fun _ => 1, ""⟩ 0) 1) 0 1 = Res.ok r s3 ∧ r = regno j ∧
          (CGState.mk (fun _ => 1) "").freereg j ≠ 0 ∧
          (∀ i : Fin 4, s3.freereg i = 0 ↔
            ((CGState.mk (fun _ => 1) "").freereg i = 0 ∨ i = j)) ∧
          ((∀ i, (CGState.mk (fun _ => 1) "").freereg i ≠ 0) →
            ∀ i : Fin 4, s3.freereg i = 0 ↔ regno i = r) :=
  ⟨(alloc_register_four ⟨fun _ => 1, ""⟩ (fun _ => one_ne_zero)).1,
    (alloc_register_four ⟨fun _ => 1, ""⟩ (fun _ => one_ne_zero)).2.1,
    arithmetic_register_accounting ⟨fun _ => 1, ""⟩ _ _ 0 1
      (alloc_register_four ⟨fun _ => 1, ""⟩ (fun _ => one_ne_zero)).1
      (alloc_register_four ⟨fun _ => 1, ""⟩ (fun _ => one_ne_zero)).2.1⟩

/-- C7, divide leaves the pool alone but for `r2`: for distinct held registers
`r1`, `r2`, `cgdiv(r1, r2)` succeeds and returns `r1`; afterwards slot `r2` is
free, every other slot is as before (`r1` is still held), and no slot has become
held. -/
theorem divide_frees_only_r2 (s : CGState) (i1 i2 : Fin 4) (hne : i1 ≠ i2)
    (h1 : s.freereg i1 = 0) (h2 : s.freereg i2 = 0) :
    ∃ s1, cgdiv s (regno i1) (regno i2) = Res.ok (regno i1) s1 ∧
      s1.freereg i2 = 1 ∧ s1.freereg i2 ≠ s.freereg i2 ∧
      (∀ j, j ≠ i2 → s1.freereg j = s.freereg j) ∧
      s1.freereg i1 = 0 ∧ (∀ j, s1.freereg j = 0 → s.freereg j = 0) := by
  rw [cgdiv_held s i1 i2 h2]
  have hother : ∀ j, j ≠ i2 →
      (release
        (fprintf
          (fprintf
            (fprintf (fprintf s ("\tmov\trax, " ++ regname i1 ++ "\n")) "\tcqo\n")
            ("\tidiv\t" ++ regname i2 ++ "\n"))
          ("\tmov\t" ++ regname i1 ++ ", rax\n")) i2).freereg j = s.freereg j := by
    intro j hj
    simp [release, fprintf, Function.update_noteq hj]
  refine ⟨_, rfl, by simp [release], by simp [release, h2], hother, ?_, ?_⟩
  · rw [hother i1 hne, h1]
  · intro j hj
    by_cases hj2 : j = i2
    · rw [hj2]
      exact h2
    · rw [← hother j hj2]
      exact hj

/-- Dividing register 2 by register 0, both held. -/
theorem divide_frees_only_r2_witness :
    ∃ s1, cgdiv ⟨![0, 1, 0, 1], ""⟩ 2 0 = Res.ok 2 s1 ∧
      s1.freereg 0 = 1 ∧ s1.freereg 0 ≠ (![0, 1, 0, 1] : Fin 4 → Int) 0 ∧
      (∀ j, j ≠ 0 → s1.freereg j = (![0, 1, 0, 1] : Fin 4 → Int) j) ∧
      s1.freereg 2 = 0 ∧ (∀ j, s1.freereg j = 0 → (![0, 1, 0, 1] : Fin 4 → Int) j = 0) :=
  divide_frees_only_r2 ⟨![0, 1, 0, 1], ""⟩ 2 0 (by decide) rfl rfl

/-- The entry of `invcmplist` for the table index `k` jumps exactly when the
relation with index `k` does not hold. -/
theorem invcmplist_inverts (k : Int) (h0 : 0 ≤ k) (h5 : k ≤ 5) :
    ∃ j jc, index invcmplist k = some j ∧ jcc j = some jc ∧
      ∀ a b : Int, wrap64 a = a → wrap64 b = b → jc (cmp a b) = !relop k a b := by
  have hk : k = 0 ∨ k = 1 ∨ k = 2 ∨ k = 3 ∨ k = 4 ∨ k = 5 := by omega
  rcases hk with rfl | rfl | rfl | rfl | rfl | rfl
  · refine ⟨"jne", _, rfl, rfl, ?_⟩
    intro a b ha hb
    rw [← (setcc_cmp_relop a b ha hb).1]
  · refine ⟨"je", _, rfl, rfl, ?_⟩
    intro a b ha hb
    rw [← (setcc_cmp_relop a b ha hb).2.1]
    simp
  · refine ⟨"jge", _, rfl, rfl, ?_⟩
    intro a b ha hb
    rw [← (setcc_cmp_relop a b ha hb).2.2.1]
    cases (cmp a b).SF <;> cases (cmp a b).OF <;> rfl
  · refine ⟨"jle", _, rfl, rfl, ?_⟩
    intro a b ha hb
    rw [← (setcc_cmp_relop a b ha hb).2.2.2.1]
    cases (cmp a b).ZF <;> cases (cmp a b).SF <;> cases (cmp a b).OF <;> rfl
  · refine ⟨"jg", _, rfl, rfl, ?_⟩
    intro a b ha hb
    rw [← (setcc_cmp_relop a b ha hb).2.2.2.2.1]
    cases (cmp a b).ZF <;> cases (cmp a b).SF <;> cases (cmp a b).OF <;> rfl
  · refine ⟨"jl", _, rfl, rfl, ?_⟩
    intro a b ha hb
    rw [← (setcc_cmp_relop a b ha hb).2.2.2.2.2]
    cases (cmp a b).SF <;> cases (cmp a b).OF <;> rfl

/-- C8, compare-and-branch: for an operator code from `A_EQ` to `A_GE`,
register indices `r1`, `r2` in `0..3`, any label and any pool state,
`cgcompare_and_jump` appends exactly the line `cmp r1, r2` and then the entry
of `invcmplist` for the operator with target `L<label>`, a jump taken exactly
when the relation does not hold; it leaves all four slots free and returns
`NOREG`.  For `A_LT` and label 3 the second line is `jge L3`. -/
theorem compare_and_branch (e : Env) (s : CGState) (ASTop : Int)
    (hlo : e.A_EQ ≤ ASTop) (hhi : ASTop ≤ e.A_GE) (i1 i2 : Fin 4) (label : Int) :
    ∃ j jc s1,
      index invcmplist (ASTop - e.A_EQ) = some j ∧ jcc j = some jc ∧
      (∀ a b : Int, wrap64 a = a → wrap64 b = b →
        jc (cmp a b) = !relop (ASTop - e.A_EQ) a b) ∧
      cgcompare_and_jump e s ASTop (regno i1) (regno i2) label = Res.ok e.NOREG s1 ∧
      s1.Outfile =
        s.Outfile ++ ("\tcmp\t" ++ regname i1 ++ ", " ++ regname i2 ++ "\n") ++
          ("\t" ++ j ++ "\tL" ++ fmt_d label ++ "\n") ∧
      (∀ i, s1.freereg i = 1) ∧
      (ASTop = e.A_EQ + 2 → label = 3 →
        s1.Outfile =
          s.Outfile ++ ("\tcmp\t" ++ regname i1 ++ ", " ++ regname i2 ++ "\n") ++
            "\tjge\tL3\n") := by
  unfold Env.A_GE at hhi
  obtain ⟨j, jc, hj, hjc, hrel⟩ :=
    invcmplist_inverts (ASTop - e.A_EQ) (by omega) (by omega)
  have hop : ¬(ASTop < e.A_EQ ∨ ASTop > e.A_GE) := by
    unfold Env.A_GE
    omega
  refine ⟨j, jc,
    freeall_registers
      (fprintf (fprintf s ("\tcmp\t" ++ regname i1 ++ ", " ++ regname i2 ++ "\n"))
        ("\t" ++ j ++ "\tL" ++ fmt_d label ++ "\n")),
    hj, hjc, hrel, ?_, rfl, ?_, ?_⟩
  · unfold cgcompare_and_jump
    rw [if_neg hop, index_reglist, index_reglist]
    simp only [hj]
  · intro i
    rfl
  · intro hop3 hl
    have h2 : ASTop - e.A_EQ = 2 := by omega
    rw [h2] at hj
    have hj2 : j = "jge" := by
      have : index invcmplist 2 = some "jge" := rfl
      rw [this] at hj
      exact (Option.some.inj hj).symm
    subst hj2
    subst hl
    rfl

/-- The branch for `A_LT` on the registers 0 and 1 to label 3, with `A_EQ = 5`. -/
theorem compare_and_branch_witness :
    sampleEnv.A_EQ ≤ 7 ∧ 7 ≤ sampleEnv.A_GE ∧
      ∃ j jc s1,
        index invcmplist (7 - sampleEnv.A_EQ) = some j ∧ jcc j = some jc ∧
        (∀ a b : Int, wrap64 a = a → wrap64 b = b →
          jc (cmp a b) = !relop (7 - sampleEnv.A_EQ) a b) ∧
        cgcompare_and_jump sampleEnv ⟨fun _ => 0, ""⟩ 7 (regno 0) (regno 1) 3 =
          Res.ok sampleEnv.NOREG s1 ∧
        s1.Outfile =
          "" ++ ("\tcmp\t" ++ regname 0 ++ ", " ++ regname 1 ++ "\n") ++
            ("\t" ++ j ++ "\tL" ++ fmt_d 3 ++ "\n") ∧
        (∀ i, s1.freereg i = 1) ∧
        ((7 : Int) = sampleEnv.A_EQ + 2 → (3 : Int) = 3 →
          s1.Outfile =
            "" ++ ("\tcmp\t" ++ regname 0 ++ ", " ++ regname 1 ++ "\n") ++
              "\tjge\tL3\n") :=
  ⟨by decide, by decide,
    compare_and_branch sampleEnv ⟨fun _ => 0, ""⟩ 7 (by decide) (by decide) 0 1 3⟩

/-- C9, load-immediate then print: from a pool with every slot free, for every
value `v`, `r := cgloadint(v)` followed by `cgprintint(r)` succeeds with
`r = 0` and appends exactly `mov r8, v`, `mov rdi, r8` and `call printint`, in
this order; afterwards every slot is free again. -/
theorem load_immediate_then_print (s : CGState) (hall : ∀ i, s.freereg i ≠ 0)
    (v ty : Int) :
    ∃ r s1 s2,
      cgloadint s v ty = Res.ok r s1 ∧ cgprintint s1 r = Res.ok () s2 ∧
      r = 0 ∧ index reglist r = some "r8" ∧
      s1.Outfile = s.Outfile ++ ("\tmov\tr8, " ++ fmt_d v ++ "\n") ∧
      s2.Outfile =
        s.Outfile ++ ("\tmov\tr8, " ++ fmt_d v ++ "\n") ++ "\tmov\trdi, r8\n" ++
          "\tcall\tprintint\n" ∧
      ∀ i, s2.freereg i ≠ 0 := by
  have ha : alloc_register s = Res.ok 0 (hold s 0) := (alloc_register_four s hall).1
  have hn : index reglist 0 = some "r8" := rfl
  refine ⟨0, fprintf (hold s 0) ("\tmov\tr8, " ++ fmt_d v ++ "\n"),
    release
      (fprintf
        (fprintf (fprintf (hold s 0) ("\tmov\tr8, " ++ fmt_d v ++ "\n"))
          "\tmov\trdi, r8\n")
        "\tcall\tprintint\n") 0,
    ?_, ?_, rfl, hn, rfl, rfl, ?_⟩
  · have hs : "\tmov\t" ++ "r8" ++ ", " = "\tmov\tr8, " := by decide
    unfold cgloadint
    rw [ha]
    simp only [hn, hs]
  · have hs : "\tmov\trdi, " ++ "r8" ++ "\n" = "\tmov\trdi, r8\n" := by decide
    unfold cgprintint
    simp only [hn, hs]
    exact free_register_held _ 0 (by simp [fprintf, hold])
  · intro i
    by_cases hi : i = 0
    · subst hi
      simp [release]
    · simpa [release, fprintf, hold, Function.update_noteq hi] using hall i

/-- Loading and printing the value 5 from a fresh pool. -/
theorem load_immediate_then_print_witness :
    fmt_d 5 = "5" ∧
      (∀ i : Fin 4, (CGState.mk (fun _ => 1) "").freereg i ≠ 0) ∧
      ∃ r s1 s2,
        cgloadint ⟨fun _ => 1, ""⟩ 5 0 = Res.ok r s1 ∧ cgprintint s1 r = Res.ok () s2 ∧
        r = 0 ∧ index reglist r = some "r8" ∧
        s1.Outfile = "" ++ ("\tmov\tr8, " ++ fmt_d 5 ++ "\n") ∧
        s2.Outfile =
          "" ++ ("\tmov\tr8, " ++ fmt_d 5 ++ "\n") ++ "\tmov\trdi, r8\n" ++
            "\tcall\tprintint\n" ∧
        ∀ i, s2.freereg i ≠ 0 :=
  ⟨by decide, fun _ => one_ne_zero,
    load_immediate_then_print ⟨fun _ => 1, ""⟩ (fun _ => one_ne_zero) 5 0⟩

/-- Every table index from 0 to 5 has an entry in `cmplist`. -/
theorem index_cmplist (k : Int) (h0 : 0 ≤ k) (h5 : k ≤ 5) :
    ∃ m, index cmplist k = some m := by
  have hk : k = 0 ∨ k = 1 ∨ k = 2 ∨ k = 3 ∨ k = 4 ∨ k = 5 := by omega
  rcases hk with rfl | rfl | rfl | rfl | rfl | rfl <;> exact ⟨_, rfl⟩

/-- C10, compare-and-set: for an operator code from `A_EQ` to `A_GE` and
distinct held registers `r1`, `r2`, `cgcompare_and_set` succeeds and appends
exactly three lines: `cmp r1, r2`, the entry of `cmplist` for the operator
applied to the low-byte alias of `r2`, and `movzx r2, <low byte of r2>`; it
frees `r1`, changes no other slot, and returns `r2`, which is still held.
The operand `breglist[r2]` of the second and third line is the x86-64 low
byte of the register `reglist[r2]`: one of `r8b`, `r9b`, `r10b`, `r11b` for
`r8`, `r9`, `r10`, `r11`, the register name with `b` appended. -/
theorem compare_and_set (e : Env) (s : CGState) (ASTop : Int)
    (hlo : e.A_EQ ≤ ASTop) (hhi : ASTop ≤ e.A_GE) (i1 i2 : Fin 4) (hne : i1 ≠ i2)
    (h1 : s.freereg i1 = 0) (h2 : s.freereg i2 = 0) :
    ∃ m s1,
      index cmplist (ASTop - e.A_EQ) = some m ∧
      cgcompare_and_set e s ASTop (regno i1) (regno i2) = Res.ok (regno i2) s1 ∧
      s1.Outfile =
        s.Outfile ++ ("\tcmp\t" ++ regname i1 ++ ", " ++ regname i2 ++ "\n") ++
          ("\t" ++ m ++ "\t" ++ bregname i2 ++ "\n") ++
          ("\tmovzx\t" ++ regname i2 ++ ", " ++ bregname i2 ++ "\n") ∧
      s1.freereg i1 = 1 ∧ (∀ j, j ≠ i1 → s1.freereg j = s.freereg j) ∧
      s1.freereg i2 = 0 ∧
      index reglist (regno i2) = some (regname i2) ∧
      index breglist (regno i2) = some (bregname i2) ∧
      (regname i2, bregname i2) ∈
        [("r8", "r8b"), ("r9", "r9b"), ("r10", "r10b"), ("r11", "r11b")] ∧
      lowByteAlias (regname i2) = some (bregname i2) ∧
      bregname i2 = regname i2 ++ "b" ∧ bregname i2 ≠ regname i2 ∧
      s1.Outfile =
        s.Outfile ++ ("\tcmp\t" ++ regname i1 ++ ", " ++ regname i2 ++ "\n") ++
          ("\t" ++ m ++ "\t" ++ (regname i2 ++ "b") ++ "\n") ++
          ("\tmovzx\t" ++ regname i2 ++ ", " ++ (regname i2 ++ "b") ++ "\n") := by
  obtain ⟨hpair, halias, hb, hbne⟩ := bregname_low_byte i2
  unfold Env.A_GE at hhi
  obtain ⟨m, hm⟩ := index_cmplist (ASTop - e.A_EQ) (by omega) (by omega)
  have hop : ¬(ASTop < e.A_EQ ∨ ASTop > e.A_GE) := by
    unfold Env.A_GE
    omega
  have hother : ∀ j, j ≠ i1 →
      (release
        (fprintf
          (fprintf
            (fprintf s ("\tcmp\t" ++ regname i1 ++ ", " ++ regname i2 ++ "\n"))
            ("\t" ++ m ++ "\t" ++ bregname i2 ++ "\n"))
          ("\tmovzx\t" ++ regname i2 ++ ", " ++ bregname i2 ++ "\n")) i1).freereg j =
        s.freereg j := by
    intro j hj
    simp [release, fprintf, Function.update_noteq hj]
  refine ⟨m, _, hm, ?_, ?_, ?_, hother, ?_, index_reglist i2, index_breglist i2,
    hpair, halias, hb, hbne, ?_⟩
  · unfold cgcompare_and_set
    rw [if_neg hop, index_reglist, index_reglist, index_breglist]
    simp only [hm]
    rw [free_register_held _ i1 (by simpa [fprintf] using h1)]
    rfl
  · rfl
  · simp [release]
  · rw [hother i2 (Ne.symm hne), h2]
  · rw [← hb]
    rfl

/-- The comparison `A_GT` of the held registers 0 and 1, with `A_EQ = 5`: the
lines are `cmp r8, r9`, `setg r9b` and `movzx r9, r9b`. -/
theorem compare_and_set_witness :
    sampleEnv.A_EQ ≤ 8 ∧ 8 ≤ sampleEnv.A_GE ∧
      ∃ m s1,
        index cmplist (8 - sampleEnv.A_EQ) = some m ∧
        cgcompare_and_set sampleEnv ⟨![0, 0, 1, 1], ""⟩ 8 (regno 0) (regno 1) =
          Res.ok (regno 1) s1 ∧
        s1.Outfile =
          "" ++ ("\tcmp\t" ++ regname 0 ++ ", " ++ regname 1 ++ "\n") ++
            ("\t" ++ m ++ "\t" ++ bregname 1 ++ "\n") ++
            ("\tmovzx\t" ++ regname 1 ++ ", " ++ bregname 1 ++ "\n") ∧
        s1.freereg 0 = 1 ∧ (∀ j, j ≠ 0 → s1.freereg j = (![0, 0, 1, 1] : Fin 4 → Int) j) ∧
        s1.freereg 1 = 0 ∧
        index reglist (regno 1) = some (regname 1) ∧
        index breglist (regno 1) = some (bregname 1) ∧
        (regname 1, bregname 1) ∈
          [("r8", "r8b"), ("r9", "r9b"), ("r10", "r10b"), ("r11", "r11b")] ∧
        lowByteAlias (regname 1) = some (bregname 1) ∧
        bregname 1 = regname 1 ++ "b" ∧ bregname 1 ≠ regname 1 ∧
        s1.Outfile =
          "" ++ ("\tcmp\t" ++ regname 0 ++ ", " ++ regname 1 ++ "\n") ++
            ("\t" ++ m ++ "\t" ++ (regname 1 ++ "b") ++ "\n") ++
            ("\tmovzx\t" ++ regname 1 ++ ", " ++ (regname 1 ++ "b") ++ "\n") :=
  ⟨by decide, by decide,
    compare_and_set sampleEnv ⟨![0, 0, 1, 1], ""⟩ 8 (by decide) (by decide) 0 1
      (by decide) rfl rfl⟩

/-! ## Validation of the comparison operator -/

/-- A failing `free_register` changes nothing, and its error is the double
free or an index outside the pool. -/
theorem free_register_fatal {s s1 : CGState} {reg : Int} {err : Fatal}
    (h : free_register s reg = Res.fatal err s1) :
    (err = Fatal.undefined ∨ err = DoubleFreeRegister reg) ∧ s1 = s := by
  unfold free_register at h
  cases hs : slot reg with
  | none =>
    simp only [hs, Res.fatal.injEq] at h
    exact ⟨Or.inl h.1.symm, h.2.symm⟩
  | some i =>
    simp only [hs] at h
    by_cases hf : s.freereg i = 0
    · simp [hf] at h
    · simp only [ne_eq, hf, not_false_eq_true, if_true, Res.fatal.injEq] at h
      exact ⟨Or.inr h.1.symm, h.2.symm⟩

/-- With an operator code in range, `cgcompare_and_set` does not fail with a
`fatal` message. -/
theorem cgcompare_and_set_valid (e : Env) (s : CGState) (ASTop r1 r2 : Int)
    (hop : ¬(ASTop < e.A_EQ ∨ ASTop > e.A_GE)) (msg : String) (s1 : CGState) :
    cgcompare_and_set e s ASTop r1 r2 ≠ Res.fatal (Fatal.fatal msg) s1 := by
  unfold cgcompare_and_set
  rw [if_neg hop]
  split
  · split
    · dsimp only
      split
      · rename_i err s4 hfr
        rcases (free_register_fatal hfr).1 with h | h <;> rw [h] <;>
          simp [DoubleFreeRegister]
      · simp
    · simp
  · simp

/-- With an operator code in range, `cgcompare_and_jump` does not fail with a
`fatal` message. -/
theorem cgcompare_and_jump_valid (e : Env) (s : CGState) (ASTop r1 r2 label : Int)
    (hop : ¬(ASTop < e.A_EQ ∨ ASTop > e.A_GE)) (msg : String) (s1 : CGState) :
    cgcompare_and_jump e s ASTop r1 r2 label ≠ Res.fatal (Fatal.fatal msg) s1 := by
  unfold cgcompare_and_jump
  rw [if_neg hop]
  split
  · split <;> simp
  · simp

/-- C11, invalid comparison operator: for every operator code and all register
arguments, `cgcompare_and_set` and `cgcompare_and_jump` fail with
`InvalidComparisonOperator` exactly when the code lies outside `A_EQ..A_GE`;
such a failure leaves output and pool as they were; and a code that passes the
check gives a table index `ASTop - A_EQ` within `0..5`, where both tables have
an entry. -/
theorem invalid_comparison_operator (e : Env) (s : CGState) (ASTop r1 r2 label : Int) :
    ((∃ s1, cgcompare_and_set e s ASTop r1 r2 = Res.fatal InvalidComparisonOperator s1) ↔
        (ASTop < e.A_EQ ∨ ASTop > e.A_GE)) ∧
      ((∃ s1, cgcompare_and_jump e s ASTop r1 r2 label =
          Res.fatal InvalidComparisonOperator s1) ↔
        (ASTop < e.A_EQ ∨ ASTop > e.A_GE)) ∧
      (∀ s1, cgcompare_and_set e s ASTop r1 r2 = Res.fatal InvalidComparisonOperator s1 →
        s1 = s) ∧
      (∀ s1, cgcompare_and_jump e s ASTop r1 r2 label =
          Res.fatal InvalidComparisonOperator s1 → s1 = s) ∧
      (¬(ASTop < e.A_EQ ∨ ASTop > e.A_GE) →
        0 ≤ ASTop - e.A_EQ ∧ ASTop - e.A_EQ ≤ 5 ∧
        (∃ m, index cmplist (ASTop - e.A_EQ) = some m) ∧
        ∃ j, index invcmplist (ASTop - e.A_EQ) = some j) := by
  have hset : (ASTop < e.A_EQ ∨ ASTop > e.A_GE) →
      cgcompare_and_set e s ASTop r1 r2 = Res.fatal InvalidComparisonOperator s := by
    intro hop
    unfold cgcompare_and_set
    rw [if_pos hop]
    rfl
  have hjump : (ASTop < e.A_EQ ∨ ASTop > e.A_GE) →
      cgcompare_and_jump e s ASTop r1 r2 label = Res.fatal InvalidComparisonOperator s := by
    intro hop
    unfold cgcompare_and_jump
    rw [if_pos hop]
    rfl
  have hset2 : ∀ s1,
      cgcompare_and_set e s ASTop r1 r2 = Res.fatal InvalidComparisonOperator s1 →
      (ASTop < e.A_EQ ∨ ASTop > e.A_GE) := by
    intro s1 h
    by_contra hop
    exact cgcompare_and_set_valid e s ASTop r1 r2 hop _ s1 h
  have hjump2 : ∀ s1,
      cgcompare_and_jump e s ASTop r1 r2 label = Res.fatal InvalidComparisonOperator s1 →
      (ASTop < e.A_EQ ∨ ASTop > e.A_GE) := by
    intro s1 h
    by_contra hop
    exact cgcompare_and_jump_valid e s ASTop r1 r2 label hop _ s1 h
  refine ⟨⟨fun ⟨s1, h⟩ => hset2 s1 h, fun hop => ⟨s, hset hop⟩⟩,
    ⟨fun ⟨s1, h⟩ => hjump2 s1 h, fun hop => ⟨s, hjump hop⟩⟩, ?_, ?_, ?_⟩
  · intro s1 h
    rw [hset (hset2 s1 h)] at h
    simp only [Res.fatal.injEq] at h
    exact h.2.symm
  · intro s1 h
    rw [hjump (hjump2 s1 h)] at h
    simp only [Res.fatal.injEq] at h
    exact h.2.symm
  · intro hop
    have h0 : 0 ≤ ASTop - e.A_EQ := by omega
    have h5 : ASTop - e.A_EQ ≤ 5 := by
      unfold Env.A_GE at hop
      omega
    obtain ⟨j, _, hj, _⟩ := invcmplist_inverts (ASTop - e.A_EQ) h0 h5
    exact ⟨h0, h5, index_cmplist _ h0 h5, j, hj⟩

/-- The operator code 4, below `A_EQ = 5`, is refused by both functions. -/
theorem invalid_comparison_operator_witness :
    (∃ s1, cgcompare_and_set sampleEnv initialState 4 0 1 =
        Res.fatal InvalidComparisonOperator s1) ∧
      ∃ s1, cgcompare_and_jump sampleEnv initialState 4 0 1 3 =
        Res.fatal InvalidComparisonOperator s1 :=
  ⟨(invalid_comparison_operator sampleEnv initialState 4 0 1 3).1.mpr (Or.inl (by decide)),
    (invalid_comparison_operator sampleEnv initialState 4 0 1 3).2.1.mpr
      (Or.inl (by decide))⟩

/-! ## The arithmetic instructions -/

/-- Releasing slot `i` after printing: slot `i` is free and the other slots
are as before. -/
theorem release_frame (s s2 : CGState) (i : Fin 4) (hs : s2.freereg = s.freereg) :
    (release s2 i).freereg i = 1 ∧ ∀ j, j ≠ i → (release s2 i).freereg j = s.freereg j := by
  constructor
  · simp [release]
  · intro j hj
    simp [release, hs, Function.update_noteq hj]

/-- C12, add and multiply convention: for distinct held registers `r1`, `r2`,
`cgadd(r1, r2)` appends exactly the line `add r2, r1` and `cgmul(r1, r2)`
exactly the line `imul r2, r1`; each frees `r1`, leaves every other slot
unchanged (so `r2` stays held), and returns `r2`. -/
theorem add_mul_convention (s : CGState) (i1 i2 : Fin 4) (hne : i1 ≠ i2)
    (h1 : s.freereg i1 = 0) (h2 : s.freereg i2 = 0) :
    (∃ sa, cgadd s (regno i1) (regno i2) = Res.ok (regno i2) sa ∧
        sa.Outfile = s.Outfile ++ ("\tadd\t" ++ regname i2 ++ ", " ++ regname i1 ++ "\n") ∧
        sa.freereg i1 = 1 ∧ (∀ j, j ≠ i1 → sa.freereg j = s.freereg j) ∧
        sa.freereg i2 = 0) ∧
      ∃ sm, cgmul s (regno i1) (regno i2) = Res.ok (regno i2) sm ∧
        sm.Outfile = s.Outfile ++ ("\timul\t" ++ regname i2 ++ ", " ++ regname i1 ++ "\n") ∧
        sm.freereg i1 = 1 ∧ (∀ j, j ≠ i1 → sm.freereg j = s.freereg j) ∧
        sm.freereg i2 = 0 := by
  constructor
  · rw [cgadd_held s i1 i2 h1]
    obtain ⟨hf, ho⟩ := release_frame s
      (fprintf s ("\tadd\t" ++ regname i2 ++ ", " ++ regname i1 ++ "\n")) i1 rfl
    exact ⟨_, rfl, rfl, hf, ho, by rw [ho i2 (Ne.symm hne), h2]⟩
  · rw [cgmul_held s i1 i2 h1]
    obtain ⟨hf, ho⟩ := release_frame s
      (fprintf s ("\timul\t" ++ regname i2 ++ ", " ++ regname i1 ++ "\n")) i1 rfl
    exact ⟨_, rfl, rfl, hf, ho, by rw [ho i2 (Ne.symm hne), h2]⟩

/-- Adding and multiplying register 0 into register 1, both held. -/
theorem add_mul_convention_witness :
    (∃ sa, cgadd ⟨![0, 0, 1, 1], ""⟩ (regno 0) (regno 1) = Res.ok (regno 1) sa ∧
        sa.Outfile = "" ++ ("\tadd\t" ++ regname 1 ++ ", " ++ regname 0 ++ "\n") ∧
        sa.freereg 0 = 1 ∧ (∀ j, j ≠ 0 → sa.freereg j = (![0, 0, 1, 1] : Fin 4 → Int) j) ∧
        sa.freereg 1 = 0) ∧
      ∃ sm, cgmul ⟨![0, 0, 1, 1], ""⟩ (regno 0) (regno 1) = Res.ok (regno 1) sm ∧
        sm.Outfile = "" ++ ("\timul\t" ++ regname 1 ++ ", " ++ regname 0 ++ "\n") ∧
        sm.freereg 0 = 1 ∧ (∀ j, j ≠ 0 → sm.freereg j = (![0, 0, 1, 1] : Fin 4 → Int) j) ∧
        sm.freereg 1 = 0 :=
  add_mul_convention ⟨![0, 0, 1, 1], ""⟩ 0 1 (by decide) rfl rfl

/-- C13, subtract operand order: for distinct held registers `r1`, `r2`,
`cgsub(r1, r2)` appends exactly the line `sub r1, r2`, with the minuend `r1` as
destination; it frees `r2`, leaves every other slot unchanged (so `r1` stays
held), and returns `r1`. -/
theorem subtract_operand_order (s : CGState) (i1 i2 : Fin 4) (hne : i1 ≠ i2)
    (h1 : s.freereg i1 = 0) (h2 : s.freereg i2 = 0) :
    ∃ s1, cgsub s (regno i1) (regno i2) = Res.ok (regno i1) s1 ∧
      s1.Outfile = s.Outfile ++ ("\tsub\t" ++ regname i1 ++ ", " ++ regname i2 ++ "\n") ∧
      s1.freereg i2 = 1 ∧ (∀ j, j ≠ i2 → s1.freereg j = s.freereg j) ∧
      s1.freereg i1 = 0 := by
  rw [cgsub_held s i1 i2 h2]
  obtain ⟨hf, ho⟩ := release_frame s
    (fprintf s ("\tsub\t" ++ regname i1 ++ ", " ++ regname i2 ++ "\n")) i2 rfl
  exact ⟨_, rfl, rfl, hf, ho, by rw [ho i1 hne, h1]⟩

/-- Subtracting register 1 from register 0, both held: `sub r8, r9`. -/
theorem subtract_operand_order_witness :
    regname 0 = "r8" ∧ regname 1 = "r9" ∧
      ∃ s1, cgsub ⟨![0, 0, 1, 1], ""⟩ (regno 0) (regno 1) = Res.ok (regno 0) s1 ∧
        s1.Outfile = "" ++ ("\tsub\t" ++ regname 0 ++ ", " ++ regname 1 ++ "\n") ∧
        s1.freereg 1 = 1 ∧ (∀ j, j ≠ 1 → s1.freereg j = (![0, 0, 1, 1] : Fin 4 → Int) j) ∧
        s1.freereg 0 = 0 :=
  ⟨rfl, rfl, subtract_operand_order ⟨![0, 0, 1, 1], ""⟩ 0 1 (by decide) rfl rfl⟩

/-- C14, divide instruction sequence and reserved pair: for registers `r1`,
`r2` with `r2` held (in particular for distinct held registers),
`cgdiv(r1, r2)` appends exactly the four lines `mov rax, r1`, `cqo`, `idiv r2`,
`mov r1, rax`, in this order; and no index that `alloc_register` returns has
`rax`, `rdx` or one of their parts as its name in `reglist` or `breglist`. -/
theorem divide_sequence_and_reserved_pair (s : CGState) (i1 i2 : Fin 4)
    (h2 : s.freereg i2 = 0) :
    (∃ s1, cgdiv s (regno i1) (regno i2) = Res.ok (regno i1) s1 ∧
        s1.Outfile =
          s.Outfile ++ ("\tmov\trax, " ++ regname i1 ++ "\n") ++ "\tcqo\n" ++
            ("\tidiv\t" ++ regname i2 ++ "\n") ++ ("\tmov\t" ++ regname i1 ++ ", rax\n")) ∧
      ∀ (s0 s1 : CGState) (r : Int), alloc_register s0 = Res.ok r s1 →
        ∃ n b, index reglist r = some n ∧ index breglist r = some b ∧
          n ∉ accumulatorNames ∧ b ∉ accumulatorNames := by
  constructor
  · rw [cgdiv_held s i1 i2 h2]
    exact ⟨_, rfl, rfl⟩
  · intro s0 s1 r h
    obtain ⟨i, rfl, _, _⟩ := alloc_register_ok h
    refine ⟨regname i, bregname i, index_reglist i, index_breglist i, ?_, ?_⟩
    · fin_cases i <;> decide
    · fin_cases i <;> decide

/-- Dividing register 0 by register 1, both held, and the register given by a
fresh pool. -/
theorem divide_sequence_and_reserved_pair_witness :
    (∃ s1, cgdiv ⟨![0, 0, 1, 1], ""⟩ (regno 0) (regno 1) = Res.ok (regno 0) s1 ∧
        s1.Outfile =
          "" ++ ("\tmov\trax, " ++ regname 0 ++ "\n") ++ "\tcqo\n" ++
            ("\tidiv\t" ++ regname 1 ++ "\n") ++ ("\tmov\t" ++ regname 0 ++ ", rax\n")) ∧
      ∀ (s0 s1 : CGState) (r : Int), alloc_register s0 = Res.ok r s1 →
        ∃ n b, index reglist r = some n ∧ index breglist r = some b ∧
          n ∉ accumulatorNames ∧ b ∉ accumulatorNames :=
  divide_sequence_and_reserved_pair ⟨![0, 0, 1, 1], ""⟩ 0 1 rfl

/-! ## Loading and storing globals -/

/-- A pool with a free slot has a lowest free slot. -/
theorem exists_lowest_free (s : CGState) (h : ∃ i, s.freereg i ≠ 0) :
    ∃ i, s.freereg i ≠ 0 ∧ ∀ j : Fin 4, j < i → s.freereg j = 0 := by
  by_cases h0 : s.freereg 0 = 0
  · by_cases h1 : s.freereg 1 = 0
    · by_cases h2 : s.freereg 2 = 0
      · by_cases h3 : s.freereg 3 = 0
        · obtain ⟨i, hi⟩ := h
          exfalso
          fin_cases i
          · exact hi h0
          · exact hi h1
          · exact hi h2
          · exact hi h3
        · refine ⟨3, h3, ?_⟩
          intro j hj
          fin_cases j
          · exact h0
          · exact h1
          · exact h2
          · exact absurd hj (by decide)
      · refine ⟨2, h2, ?_⟩
        intro j hj
        fin_cases j
        · exact h0
        · exact h1
        · exact absurd hj (by decide)
        · exact absurd hj (by decide)
    · refine ⟨1, h1, ?_⟩
      intro j hj
      fin_cases j
      · exact h0
      · exact absurd hj (by decide)
      · exact absurd hj (by decide)
      · exact absurd hj (by decide)
  · refine ⟨0, h0, ?_⟩
    intro j hj
    fin_cases j <;> exact absurd hj (by decide)

/-- Taking slot `i`: slot `i` is held and the other slots are as before. -/
theorem hold_frame (s s2 : CGState) (i : Fin 4) (hs : s2.freereg = (hold s i).freereg) :
    s2.freereg i = 0 ∧ ∀ j, j ≠ i → s2.freereg j = s.freereg j := by
  rw [hs]
  constructor
  · simp [hold]
  · intro j hj
    simp [hold, Function.update_noteq hj]

/-- With no free slot `alloc_register` fails and changes nothing. -/
theorem alloc_register_none (s : CGState) (h : ∀ i, s.freereg i = 0) :
    alloc_register s = Res.fatal RegisterPoolExhausted s := by
  rw [alloc_register_eq]
  simp [h]

/-- C15, load global by width class: for every symbol of the table and every
pool state with a free slot, `cgloadglob` takes one register `r` (only slot `r`
changes, from free to held), returns it, and appends exactly one line:
`mov r, [name]` for a symbol of type `P_INT`, and `movzx r, byte [name]` for
any other type, in particular `P_CHAR`; with no free slot it fails with
`RegisterPoolExhausted`. -/
theorem load_global_by_width (e : Env) (s : CGState) (id : Int) (P_CHAR : Int)
    (hchar : P_CHAR ≠ e.P_INT) :
    (∀ sym, e.Gsym id = some sym → (∃ i, s.freereg i ≠ 0) →
        ∃ i s1, cgloadglob e s id = Res.ok (regno i) s1 ∧
          s.freereg i ≠ 0 ∧ s1.freereg i = 0 ∧
          (∀ j, j ≠ i → s1.freereg j = s.freereg j) ∧
          (sym.type = e.P_INT →
            s1.Outfile =
              s.Outfile ++ ("\tmov\t" ++ regname i ++ ", [" ++ sym.name ++ "]\n")) ∧
          (sym.type ≠ e.P_INT →
            s1.Outfile =
              s.Outfile ++ ("\tmovzx\t" ++ regname i ++ ", byte [" ++ sym.name ++ "]\n")) ∧
          (sym.type = P_CHAR →
            s1.Outfile =
              s.Outfile ++ ("\tmovzx\t" ++ regname i ++ ", byte [" ++ sym.name ++ "]\n"))) ∧
      ((∀ i, s.freereg i = 0) → cgloadglob e s id = Res.fatal RegisterPoolExhausted s) := by
  constructor
  · intro sym hsym hfree
    obtain ⟨i, hi, hlow⟩ := exists_lowest_free s hfree
    have ha := alloc_register_first s i hlow hi
    by_cases hty : sym.type = e.P_INT
    · refine ⟨i, fprintf (hold s i) ("\tmov\t" ++ regname i ++ ", [" ++ sym.name ++ "]\n"),
        ?_, hi, ?_, ?_, fun _ => rfl, fun h => absurd hty h, ?_⟩
      · unfold cgloadglob
        rw [ha]
        simp only [hsym, index_reglist, hty, if_true]
      · exact (hold_frame s _ i rfl).1
      · exact (hold_frame s _ i rfl).2
      · intro hc
        exact absurd (hc ▸ hty) hchar
    · refine ⟨i,
        fprintf (hold s i) ("\tmovzx\t" ++ regname i ++ ", byte [" ++ sym.name ++ "]\n"),
        ?_, hi, ?_, ?_, fun h => absurd h hty, fun _ => rfl, fun _ => rfl⟩
      · unfold cgloadglob
        rw [ha]
        simp only [hsym, index_reglist, hty, if_false]
      · exact (hold_frame s _ i rfl).1
      · exact (hold_frame s _ i rfl).2
  · intro hnone
    unfold cgloadglob
    rw [alloc_register_none s hnone]

/-- Loading the byte-sized `c` and the word-sized `x` from a fresh pool. -/
theorem load_global_by_width_witness :
    (2 : Int) ≠ sampleEnv.P_INT ∧
      (∃ i s1, cgloadglob sampleEnv ⟨fun _ => 1, ""⟩ 1 = Res.ok (regno i) s1 ∧
        (CGState.mk (fun _ => 1) "").freereg i ≠ 0 ∧ s1.freereg i = 0 ∧
        (∀ j, j ≠ i → s1.freereg j = (CGState.mk (fun _ => 1) "").freereg j) ∧
        ((symtable.mk "c" 2).type = sampleEnv.P_INT →
          s1.Outfile = "" ++ ("\tmov\t" ++ regname i ++ ", [" ++ "c" ++ "]\n")) ∧
        ((symtable.mk "c" 2).type ≠ sampleEnv.P_INT →
          s1.Outfile = "" ++ ("\tmovzx\t" ++ regname i ++ ", byte [" ++ "c" ++ "]\n")) ∧
        ((symtable.mk "c" 2).type = 2 →
          s1.Outfile = "" ++ ("\tmovzx\t" ++ regname i ++ ", byte [" ++ "c" ++ "]\n"))) :=
  ⟨by decide,
    (load_global_by_width sampleEnv ⟨fun _ => 1, ""⟩ 1 2 (by decide)).1 ⟨"c", 2⟩ rfl
      ⟨0, one_ne_zero⟩⟩

/-- C16, store global does not consume its register: for every register index
`r` in `0..3`, every symbol of the table and every pool state, `cgstorglob`
succeeds, returns `r`, leaves the register pool unchanged, and appends exactly
one line `mov [name], reg`, where `reg` is the full name of `r` for a symbol of
type `P_INT` and the low-byte alias of `r` for any other type, in particular
`P_CHAR`.  The full name `reglist[r]` is one of `r8`, `r9`, `r10`, `r11`, and
the alias `breglist[r]` is the x86-64 low byte of that register, the same name
with `b` appended, so the line for a byte symbol is `mov [name], <r>b`. -/
theorem store_global_keeps_register (e : Env) (s : CGState) (i : Fin 4) (id : Int)
    (sym : symtable) (hsym : e.Gsym id = some sym) (P_CHAR : Int)
    (hchar : P_CHAR ≠ e.P_INT) :
    ∃ s1, cgstorglob e s (regno i) id = Res.ok (regno i) s1 ∧
      s1.freereg = s.freereg ∧
      (sym.type = e.P_INT →
        s1.Outfile = s.Outfile ++ ("\tmov\t[" ++ sym.name ++ "], " ++ regname i ++ "\n")) ∧
      (sym.type ≠ e.P_INT →
        s1.Outfile = s.Outfile ++ ("\tmov\t[" ++ sym.name ++ "], " ++ bregname i ++ "\n")) ∧
      (sym.type = P_CHAR →
        s1.Outfile = s.Outfile ++ ("\tmov\t[" ++ sym.name ++ "], " ++ bregname i ++ "\n")) ∧
      index reglist (regno i) = some (regname i) ∧
      index breglist (regno i) = some (bregname i) ∧
      (regname i, bregname i) ∈
        [("r8", "r8b"), ("r9", "r9b"), ("r10", "r10b"), ("r11", "r11b")] ∧
      lowByteAlias (regname i) = some (bregname i) ∧
      bregname i = regname i ++ "b" ∧ bregname i ≠ regname i ∧
      (sym.type = P_CHAR →
        s1.Outfile =
          s.Outfile ++ ("\tmov\t[" ++ sym.name ++ "], " ++ (regname i ++ "b") ++ "\n") ∧
        s1.Outfile ≠
          s.Outfile ++ ("\tmov\t[" ++ sym.name ++ "], " ++ regname i ++ "\n")) := by
  obtain ⟨hpair, halias, hb, hbne⟩ := bregname_low_byte i
  have hdiff : s.Outfile ++ ("\tmov\t[" ++ sym.name ++ "], " ++ bregname i ++ "\n") ≠
      s.Outfile ++ ("\tmov\t[" ++ sym.name ++ "], " ++ regname i ++ "\n") := by
    intro h
    apply hbne
    have hd := congrArg String.data h
    simp only [String.data_append, List.append_cancel_left_eq,
      List.append_cancel_right_eq] at hd
    exact String.ext hd
  by_cases hty : sym.type = e.P_INT
  · refine ⟨fprintf s ("\tmov\t[" ++ sym.name ++ "], " ++ regname i ++ "\n"),
      ?_, rfl, fun _ => rfl, fun h => absurd hty h, ?_, index_reglist i, index_breglist i,
      hpair, halias, hb, hbne, ?_⟩
    · unfold cgstorglob
      simp only [hsym, index_reglist, hty, if_true]
    · intro hc
      exact absurd (hc ▸ hty) hchar
    · intro hc
      exact absurd (hc ▸ hty) hchar
  · refine ⟨fprintf s ("\tmov\t[" ++ sym.name ++ "], " ++ bregname i ++ "\n"),
      ?_, rfl, fun h => absurd h hty, fun _ => rfl, fun _ => rfl, index_reglist i,
      index_breglist i, hpair, halias, hb, hbne, ?_⟩
    · unfold cgstorglob
      simp only [hsym, index_breglist, hty, if_false]
    · intro _
      refine ⟨?_, hdiff⟩
      rw [← hb]
      rfl

/-- Storing the held register 1 into the byte-sized `c`: `mov [c], r9b`. -/
theorem store_global_keeps_register_witness :
    sampleEnv.Gsym 1 = some ⟨"c", 2⟩ ∧ (2 : Int) ≠ sampleEnv.P_INT ∧
      ∃ s1, cgstorglob sampleEnv ⟨![0, 0, 1, 1], ""⟩ (regno 1) 1 = Res.ok (regno 1) s1 ∧
        s1.freereg = (![0, 0, 1, 1] : Fin 4 → Int) ∧
        ((symtable.mk "c" 2).type = sampleEnv.P_INT →
          s1.Outfile = "" ++ ("\tmov\t[" ++ "c" ++ "], " ++ regname 1 ++ "\n")) ∧
        ((symtable.mk "c" 2).type ≠ sampleEnv.P_INT →
          s1.Outfile = "" ++ ("\tmov\t[" ++ "c" ++ "], " ++ bregname 1 ++ "\n")) ∧
        ((symtable.mk "c" 2).type = 2 →
          s1.Outfile = "" ++ ("\tmov\t[" ++ "c" ++ "], " ++ bregname 1 ++ "\n")) ∧
        index reglist (regno 1) = some (regname 1) ∧
        index breglist (regno 1) = some (bregname 1) ∧
        (regname 1, bregname 1) ∈
          [("r8", "r8b"), ("r9", "r9b"), ("r10", "r10b"), ("r11", "r11b")] ∧
        lowByteAlias (regname 1) = some (bregname 1) ∧
        bregname 1 = regname 1 ++ "b" ∧ bregname 1 ≠ regname 1 ∧
        ((symtable.mk "c" 2).type = 2 →
          s1.Outfile =
            "" ++ ("\tmov\t[" ++ "c" ++ "], " ++ (regname 1 ++ "b") ++ "\n") ∧
          s1.Outfile ≠ "" ++ ("\tmov\t[" ++ "c" ++ "], " ++ regname 1 ++ "\n")) :=
  ⟨rfl, by decide,
    store_global_keeps_register sampleEnv ⟨![0, 0, 1, 1], ""⟩ 1 1 ⟨"c", 2⟩ rfl 2
      (by decide)⟩

/-! ## Labels and jumps -/

/-- Different labels have different symbol names. -/
theorem labelname_injective : Function.Injective labelname := by
  intro a b h
  unfold labelname at h
  apply fmt_d_injective
  have hd := congrArg String.data h
  simp only [String.data_append, List.append_cancel_left_eq] at hd
  exact String.ext hd

/-- The text `<pre>L<l>` is `<pre>` followed by the symbol name of `l`. -/
theorem append_labelname (pre : String) (l : Int) :
    pre ++ "L" ++ fmt_d l = pre ++ labelname l := by
  unfold labelname
  rw [String.append_assoc]

/-- A successful `cgcompare_and_jump` wrote the compare line and a jump from
`invcmplist` to the symbol name of its label. -/
theorem cgcompare_and_jump_ok {e : Env} {s s1 : CGState} {ASTop r1 r2 label v : Int}
    (h : cgcompare_and_jump e s ASTop r1 r2 label = Res.ok v s1) :
    ∃ n1 n2 j, index reglist r1 = some n1 ∧ index reglist r2 = some n2 ∧
      index invcmplist (ASTop - e.A_EQ) = some j ∧
      s1.Outfile =
        s.Outfile ++ ("\tcmp\t" ++ n1 ++ ", " ++ n2 ++ "\n") ++
          ("\t" ++ j ++ "\t" ++ labelname label ++ "\n") := by
  unfold cgcompare_and_jump at h
  split at h
  · exact absurd h (by simp)
  · split at h
    · rename_i n1 n2 hn1 hn2
      dsimp only at h
      split at h
      · rename_i j hj
        simp only [Res.ok.injEq] at h
        refine ⟨n1, n2, j, hn1, hn2, hj, ?_⟩
        rw [← h.2]
        have hs : "\t" ++ j ++ "\tL" = "\t" ++ j ++ "\t" ++ "L" := by
          rw [String.append_assoc ("\t" ++ j) "\t" "L"]
          rfl
        simp only [freeall_registers, fprintf, hs, append_labelname]
      · exact absurd h (by simp)
    · exact absurd h (by simp)

/-- C17, branch targets resolve to anchors: `cglabel(l)` appends exactly the
anchor line `L<l>:` and `cgjump(l)` exactly `jmp L<l>`; the target written by
`cgjump(l)` and by a successful `cgcompare_and_jump(op, r1, r2, l)` is the
symbol name `L<l>` that `cglabel(l)` defines; different label ids give
different names and different anchor lines; and neither `cglabel` nor `cgjump`
changes the register pool. -/
theorem branch_targets_resolve (e : Env) (s : CGState) (l : Int) :
    (cglabel s l).Outfile = s.Outfile ++ (labelname l ++ ":\n") ∧
      (cgjump s l).Outfile = s.Outfile ++ ("\tjmp\t" ++ labelname l ++ "\n") ∧
      (∀ (s0 s1 : CGState) (ASTop r1 r2 v : Int),
        cgcompare_and_jump e s0 ASTop r1 r2 l = Res.ok v s1 →
        ∃ n1 n2 j, s1.Outfile =
          s0.Outfile ++ ("\tcmp\t" ++ n1 ++ ", " ++ n2 ++ "\n") ++
            ("\t" ++ j ++ "\t" ++ labelname l ++ "\n")) ∧
      (∀ l2 : Int, l ≠ l2 →
        labelname l ≠ labelname l2 ∧ labelname l ++ ":\n" ≠ labelname l2 ++ ":\n") ∧
      (cglabel s l).freereg = s.freereg ∧ (cgjump s l).freereg = s.freereg := by
  refine ⟨rfl, ?_, ?_, ?_, rfl, rfl⟩
  · have hs : "\tjmp\tL" = "\tjmp\t" ++ "L" := by decide
    simp only [cgjump, fprintf, hs, append_labelname]
  · intro s0 s1 ASTop r1 r2 v h
    obtain ⟨n1, n2, j, _, _, _, hout⟩ := cgcompare_and_jump_ok h
    exact ⟨n1, n2, j, hout⟩
  · intro l2 hne
    constructor
    · exact fun h => hne (labelname_injective h)
    · intro h
      apply hne
      apply labelname_injective
      have hd := congrArg String.data h
      simp only [String.data_append, List.append_cancel_right_eq] at hd
      exact String.ext hd

/-- The labels 3 and 4 and the branch for `A_LT` to label 3. -/
theorem branch_targets_resolve_witness :
    cgcompare_and_jump sampleEnv initialState 7 0 1 3 =
        Res.ok sampleEnv.NOREG
          (freeall_registers
            (fprintf (fprintf initialState ("\tcmp\t" ++ "r8" ++ ", " ++ "r9" ++ "\n"))
              ("\t" ++ "jge" ++ "\tL" ++ fmt_d 3 ++ "\n"))) ∧
      (∃ n1 n2 j,
        (freeall_registers
            (fprintf (fprintf initialState ("\tcmp\t" ++ "r8" ++ ", " ++ "r9" ++ "\n"))
              ("\t" ++ "jge" ++ "\tL" ++ fmt_d 3 ++ "\n"))).Outfile =
          initialState.Outfile ++ ("\tcmp\t" ++ n1 ++ ", " ++ n2 ++ "\n") ++
            ("\t" ++ j ++ "\t" ++ labelname 3 ++ "\n")) ∧
      labelname 3 ≠ labelname 4 ∧ labelname 3 ++ ":\n" ≠ labelname 4 ++ ":\n" := by
  have h : cgcompare_and_jump sampleEnv initialState 7 0 1 3 =
      Res.ok sampleEnv.NOREG
        (freeall_registers
          (fprintf (fprintf initialState ("\tcmp\t" ++ "r8" ++ ", " ++ "r9" ++ "\n"))
            ("\t" ++ "jge" ++ "\tL" ++ fmt_d 3 ++ "\n"))) := by
    have hop : ¬((7 : Int) < sampleEnv.A_EQ ∨ (7 : Int) > sampleEnv.A_GE) := by decide
    unfold cgcompare_and_jump
    rw [if_neg hop]
    rfl
  exact ⟨h, (branch_targets_resolve sampleEnv initialState 3).2.2.1 _ _ _ _ _ _ h,
    (branch_targets_resolve sampleEnv initialState 3).2.2.2.1 4 (by decide)⟩

/-! ## Allocation order, aliased operands and the initial pool -/

/-- C18, lowest-free-first allocation: from a pool with a free slot
`alloc_register` returns the smallest index whose slot is free, marks that slot
held and changes nothing else; every index it returns lies within `0..3` and
has an entry in `reglist` and `breglist`; and after a reset four allocations
in a row return 0, 1, 2, 3 in this order. -/
theorem lowest_free_first (s : CGState) :
    ((∃ i, s.freereg i ≠ 0) →
        ∃ i s1, alloc_register s = Res.ok (regno i) s1 ∧
          s.freereg i ≠ 0 ∧ (∀ j : Fin 4, j < i → s.freereg j = 0) ∧
          s1.freereg i = 0 ∧ (∀ j, j ≠ i → s1.freereg j = s.freereg j) ∧
          s1.Outfile = s.Outfile) ∧
      (∀ r s1, alloc_register s = Res.ok r s1 →
        0 ≤ r ∧ r < 4 ∧ ∃ n b, index reglist r = some n ∧ index breglist r = some b) ∧
      ∃ s1 s2 s3 s4,
        alloc_register (freeall_registers s) = Res.ok 0 s1 ∧
        alloc_register s1 = Res.ok 1 s2 ∧
        alloc_register s2 = Res.ok 2 s3 ∧
        alloc_register s3 = Res.ok 3 s4 := by
  refine ⟨?_, ?_, ?_⟩
  · intro hfree
    obtain ⟨i, hi, hlow⟩ := exists_lowest_free s hfree
    exact ⟨i, hold s i, alloc_register_first s i hlow hi, hi, hlow,
      (hold_frame s _ i rfl).1, (hold_frame s _ i rfl).2, rfl⟩
  · intro r s1 h
    obtain ⟨i, rfl, _, _⟩ := alloc_register_ok h
    refine ⟨?_, ?_, regname i, bregname i, index_reglist i, index_breglist i⟩
    · unfold regno
      omega
    · unfold regno
      omega
  · obtain ⟨a1, a2, a3, a4⟩ :=
      alloc_register_four (freeall_registers s) (by simp [freeall_registers])
    exact ⟨_, _, _, _, a1, a2, a3, a4⟩

/-- Slots 0 and 2 held: the allocation takes slot 1. -/
theorem lowest_free_first_witness :
    (∃ i : Fin 4, (![0, 1, 0, 1] : Fin 4 → Int) i ≠ 0) ∧
      ∃ i s1, alloc_register ⟨![0, 1, 0, 1], ""⟩ = Res.ok (regno i) s1 ∧
        (![0, 1, 0, 1] : Fin 4 → Int) i ≠ 0 ∧
        (∀ j : Fin 4, j < i → (![0, 1, 0, 1] : Fin 4 → Int) j = 0) ∧
        s1.freereg i = 0 ∧ (∀ j, j ≠ i → s1.freereg j = (![0, 1, 0, 1] : Fin 4 → Int) j) ∧
        s1.Outfile = "" :=
  ⟨⟨1, by decide⟩, (lowest_free_first ⟨![0, 1, 0, 1], ""⟩).1 ⟨1, by decide⟩⟩

/-- With an operator code in range and `r1` held, `cgcompare_and_set` prints
its three lines, frees `r1` and returns `r2`. -/
theorem cgcompare_and_set_held (e : Env) (s : CGState) (ASTop : Int)
    (hlo : e.A_EQ ≤ ASTop) (hhi : ASTop ≤ e.A_GE) (i1 i2 : Fin 4)
    (h1 : s.freereg i1 = 0) :
    ∃ m, index cmplist (ASTop - e.A_EQ) = some m ∧
      cgcompare_and_set e s ASTop (regno i1) (regno i2) =
        Res.ok (regno i2)
          (release
            (fprintf
              (fprintf
                (fprintf s ("\tcmp\t" ++ regname i1 ++ ", " ++ regname i2 ++ "\n"))
                ("\t" ++ m ++ "\t" ++ bregname i2 ++ "\n"))
              ("\tmovzx\t" ++ regname i2 ++ ", " ++ bregname i2 ++ "\n")) i1) := by
  unfold Env.A_GE at hhi
  obtain ⟨m, hm⟩ := index_cmplist (ASTop - e.A_EQ) (by omega) (by omega)
  have hop : ¬(ASTop < e.A_EQ ∨ ASTop > e.A_GE) := by
    unfold Env.A_GE
    omega
  refine ⟨m, hm, ?_⟩
  unfold cgcompare_and_set
  rw [if_neg hop, index_reglist, index_reglist, index_breglist]
  simp only [hm]
  rw [free_register_held _ i1 (by simpa [fprintf] using h1)]
  rfl

/-- C19, aliased operands release the result register: for each of `cgadd`,
`cgsub`, `cgmul`, `cgdiv` and `cgcompare_and_set` with an operator code in
range, and every held register `r`, the call with `r1 = r2 = r` succeeds and
returns `r`, yet slot `r` is free afterwards while every other slot is as
before; so the next allocation hands `r` out again when every lower slot is
held. -/
theorem aliased_operands_release_result (e : Env) (s : CGState) (i : Fin 4)
    (h : s.freereg i = 0) (ASTop : Int) (hlo : e.A_EQ ≤ ASTop) (hhi : ASTop ≤ e.A_GE) :
    ∀ op ∈ [cgadd, cgsub, cgmul, cgdiv,
        fun s0 r1 r2 => cgcompare_and_set e s0 ASTop r1 r2],
      ∃ s1, op s (regno i) (regno i) = Res.ok (regno i) s1 ∧
        s1.freereg i = 1 ∧ s1.freereg i ≠ 0 ∧
        (∀ j, j ≠ i → s1.freereg j = s.freereg j) ∧
        ((∀ j : Fin 4, j < i → s.freereg j = 0) →
          alloc_register s1 = Res.ok (regno i) (hold s1 i)) := by
  have fin : ∀ s2 : CGState, s2.freereg = s.freereg →
      (release s2 i).freereg i = 1 ∧ (release s2 i).freereg i ≠ 0 ∧
        (∀ j, j ≠ i → (release s2 i).freereg j = s.freereg j) ∧
        ((∀ j : Fin 4, j < i → s.freereg j = 0) →
          alloc_register (release s2 i) = Res.ok (regno i) (hold (release s2 i) i)) := by
    intro s2 hs2
    obtain ⟨hf, ho⟩ := release_frame s s2 i hs2
    have hnz : (release s2 i).freereg i ≠ 0 := by
      rw [hf]
      exact one_ne_zero
    refine ⟨hf, hnz, ho, ?_⟩
    intro hlow
    apply alloc_register_first _ i _ hnz
    intro j hj
    rw [ho j (ne_of_lt hj)]
    exact hlow j hj
  intro op hop
  simp only [List.mem_cons, List.mem_nil_iff, or_false] at hop
  rcases hop with rfl | rfl | rfl | rfl | rfl
  · rw [cgadd_held s i i h]
    exact ⟨_, rfl, fin _ rfl⟩
  · rw [cgsub_held s i i h]
    exact ⟨_, rfl, fin _ rfl⟩
  · rw [cgmul_held s i i h]
    exact ⟨_, rfl, fin _ rfl⟩
  · rw [cgdiv_held s i i h]
    exact ⟨_, rfl, fin _ rfl⟩
  · obtain ⟨m, _, hset⟩ := cgcompare_and_set_held e s ASTop hlo hhi i i h
    simp only [hset]
    exact ⟨_, rfl, fin _ rfl⟩

/-- Register 0 held and used as both operands, with the comparison `A_LT`. -/
theorem aliased_operands_release_result_witness :
    (![0, 1, 1, 1] : Fin 4 → Int) 0 = 0 ∧ sampleEnv.A_EQ ≤ 7 ∧ 7 ≤ sampleEnv.A_GE ∧
      ∀ op ∈ [cgadd, cgsub, cgmul, cgdiv,
          fun s0 r1 r2 => cgcompare_and_set sampleEnv s0 7 r1 r2],
        ∃ s1, op ⟨![0, 1, 1, 1], ""⟩ (regno 0) (regno 0) = Res.ok (regno 0) s1 ∧
          s1.freereg 0 = 1 ∧ s1.freereg 0 ≠ 0 ∧
          (∀ j, j ≠ 0 → s1.freereg j = (![0, 1, 1, 1] : Fin 4 → Int) j) ∧
          ((∀ j : Fin 4, j < 0 → (![0, 1, 1, 1] : Fin 4 → Int) j = 0) →
            alloc_register s1 = Res.ok (regno 0) (hold s1 0)) :=
  ⟨rfl, by decide, by decide,
    aliased_operands_release_result sampleEnv ⟨![0, 1, 1, 1], ""⟩ 0 rfl 7
      (by decide) (by decide)⟩

/-- C20, unreset pool is fully held: in a state whose `freereg` is all zero,
as it is before any call of `freeall_registers` or `cgpreamble`,
`alloc_register` fails with `RegisterPoolExhausted`, and so do `cgloadint` and
`cgloadglob`, while `free_register(i)` succeeds for each `i` in `0..3`; after
`cgpreamble`, whatever the state before, all four slots are free. -/
theorem unreset_pool_fully_held (e : Env) (s : CGState) (hinit : ∀ i, s.freereg i = 0) :
    alloc_register s = Res.fatal RegisterPoolExhausted s ∧
      (∀ value type : Int, cgloadint s value type = Res.fatal RegisterPoolExhausted s) ∧
      (∀ id : Int, cgloadglob e s id = Res.fatal RegisterPoolExhausted s) ∧
      (∀ i : Fin 4, free_register s (regno i) = Res.ok () (release s i)) ∧
      ∀ (s0 : CGState) (i : Fin 4),
        (cgpreamble s0).freereg i = 1 ∧ (cgpreamble s0).freereg i ≠ 0 := by
  have ha := alloc_register_none s hinit
  refine ⟨ha, ?_, ?_, ?_, ?_⟩
  · intro value type
    unfold cgloadint
    rw [ha]
  · intro id
    unfold cgloadglob
    rw [ha]
  · intro i
    exact free_register_held s i (hinit i)
  · intro s0 i
    constructor
    · rfl
    · show (1 : Int) ≠ 0
      exact one_ne_zero

/-- The state in which the program starts has every slot held. -/
theorem unreset_pool_fully_held_witness :
    (∀ i, initialState.freereg i = 0) ∧
      alloc_register initialState = Res.fatal RegisterPoolExhausted initialState ∧
      (∀ value type : Int,
        cgloadint initialState value type = Res.fatal RegisterPoolExhausted initialState) ∧
      (∀ id : Int,
        cgloadglob sampleEnv initialState id =
          Res.fatal RegisterPoolExhausted initialState) ∧
      (∀ i : Fin 4, free_register initialState (regno i) = Res.ok () (release initialState i)) ∧
      ∀ (s0 : CGState) (i : Fin 4),
        (cgpreamble s0).freereg i = 1 ∧ (cgpreamble s0).freereg i ≠ 0 :=
  ⟨fun _ => rfl, unreset_pool_fully_held sampleEnv initialState (fun _ => rfl)⟩

end Cgn
